import Mathlib

/-!
# MD5 and cross-correlation of the toolbox library

A shallow embedding of the streaming MD5 implementation of `src/crypt/md5.c`:
the context structure, the compression step `md5_process`, the streaming feed
`md5_update`, the finalisation `md5_finish` and the one-shot wrapper `md5`;
and of the integer cross-correlation `xcorr_i` of `src/dsp/xcorr.c`.

Machine words are natural numbers; every C operation on `uint32_t` that can
overflow carries an explicit reduction modulo `2^32`.  Byte spans
(`const uint8_t *` together with a `size_t` length) are lists of naturals.
The `int` vectors of `xcorr_i` are lists of integers, and every `int`
operation of `xcorr_i` carries an explicit reduction to the 32-bit two's
complement range (`wrap32`).
-/

namespace Toolbox

/-! ## Definitions -/

/-- Modelled from the spec: the context type `md5_t`, declared in the header
`crypt/md5.h`, which is not part of the sources at hand.  Following the data
model it holds the two halves `total[0]`, `total[1]` of the byte counter, the
four state words `state[0..3]` and the 64-byte staging `buffer`. -/
structure md5_t where
  total0 : Nat
  total1 : Nat
  state0 : Nat
  state1 : Nat
  state2 : Nat
  state3 : Nat
  buffer : List Nat
deriving DecidableEq

/-- Modelled from the spec: the word-assembly helper `GET_UINT32_LE (n, b, i)`
of the absent header `crypt/md5.h`; it reads the four bytes `b[i..i+3]` as an
unsigned 32-bit word in little-endian byte order. -/
def GET_UINT32_LE (b : List Nat) (i : Nat) : Nat :=
  ((b.getD i 0 % 256) ||| ((b.getD (i + 1) 0 % 256) <<< 8)
    ||| ((b.getD (i + 2) 0 % 256) <<< 16) ||| ((b.getD (i + 3) 0 % 256) <<< 24)) % 2 ^ 32

/-- Modelled from the spec: the helper `PUT_UINT32_LE (n, b, i)` of the absent
header `crypt/md5.h`; the four bytes it stores at `b[i..i+3]`, least
significant byte first. -/
def PUT_UINT32_LE (n : Nat) : List Nat :=
  [n % 256, (n >>> 8) % 256, (n >>> 16) % 256, (n >>> 24) % 256]

/-- The macro `S(x,n)`: `(x << n) | ((x & 0xFFFFFFFF) >> (32 - n))` on a
32-bit word. -/
def S (x n : Nat) : Nat :=
  ((x <<< n) % 2 ^ 32) ||| ((x &&& 0xFFFFFFFF) >>> (32 - n))

/-- The macro `P(a,b,c,d,k,s,t)` with the round function `F` in force and
`x = X[k]`; the value assigned to `a`. -/
def P (F : Nat → Nat → Nat → Nat) (a b _c _d x s t : Nat) : Nat :=
  let a := (a + (F b _c _d + x + t)) % 2 ^ 32
  (S a s + b) % 2 ^ 32

/-- Round function of the first phase: `z ^ (x & (y ^ z))`. -/
def F1 (x y z : Nat) : Nat := z ^^^ (x &&& (y ^^^ z))

/-- Round function of the second phase: `y ^ (z & (x ^ y))`. -/
def F2 (x y z : Nat) : Nat := y ^^^ (z &&& (x ^^^ y))

/-- Round function of the third phase: `x ^ y ^ z`. -/
def F3 (x y z : Nat) : Nat := x ^^^ y ^^^ z

/-- Round function of the fourth phase: `y ^ (x | ~z)`, the complement taken
on 32 bits. -/
def F4 (x y z : Nat) : Nat := y ^^^ (x ||| (0xFFFFFFFF - z % 2 ^ 32))

/-- The table `md5_padding`: one byte `0x80` followed by 63 zero bytes. -/
def md5_padding : List Nat := 0x80 :: List.replicate 63 0

/-- MD5 context setup: `md5_pre` resets the counter and the state words and
leaves the buffer as it found it. -/
def md5_pre (ctx : md5_t) : md5_t :=
  { ctx with
    total0 := 0
    total1 := 0
    state0 := 0x67452301
    state1 := 0xEFCDAB89
    state2 := 0x98BADCFE
    state3 := 0x10325476 }

/-- The body of `md5_process` between the loading of the registers and the
feed-forward addition: the sixteen words `X[0..15]` are read from `data` in
little-endian order and the 64 unrolled applications of `P` are run on the
registers `A`, `B`, `C`, `D`, whose final values are returned. -/
def md5_rounds (A B C D : Nat) (data : List Nat) : Nat × Nat × Nat × Nat :=
  let X := fun k => GET_UINT32_LE data (4 * k)
  let A := P F1 A B C D (X 0) 7 0xD76AA478
  let D := P F1 D A B C (X 1) 12 0xE8C7B756
  let C := P F1 C D A B (X 2) 17 0x242070DB
  let B := P F1 B C D A (X 3) 22 0xC1BDCEEE
  let A := P F1 A B C D (X 4) 7 0xF57C0FAF
  let D := P F1 D A B C (X 5) 12 0x4787C62A
  let C := P F1 C D A B (X 6) 17 0xA8304613
  let B := P F1 B C D A (X 7) 22 0xFD469501
  let A := P F1 A B C D (X 8) 7 0x698098D8
  let D := P F1 D A B C (X 9) 12 0x8B44F7AF
  let C := P F1 C D A B (X 10) 17 0xFFFF5BB1
  let B := P F1 B C D A (X 11) 22 0x895CD7BE
  let A := P F1 A B C D (X 12) 7 0x6B901122
  let D := P F1 D A B C (X 13) 12 0xFD987193
  let C := P F1 C D A B (X 14) 17 0xA679438E
  let B := P F1 B C D A (X 15) 22 0x49B40821
  let A := P F2 A B C D (X 1) 5 0xF61E2562
  let D := P F2 D A B C (X 6) 9 0xC040B340
  let C := P F2 C D A B (X 11) 14 0x265E5A51
  let B := P F2 B C D A (X 0) 20 0xE9B6C7AA
  let A := P F2 A B C D (X 5) 5 0xD62F105D
  let D := P F2 D A B C (X 10) 9 0x02441453
  let C := P F2 C D A B (X 15) 14 0xD8A1E681
  let B := P F2 B C D A (X 4) 20 0xE7D3FBC8
  let A := P F2 A B C D (X 9) 5 0x21E1CDE6
  let D := P F2 D A B C (X 14) 9 0xC33707D6
  let C := P F2 C D A B (X 3) 14 0xF4D50D87
  let B := P F2 B C D A (X 8) 20 0x455A14ED
  let A := P F2 A B C D (X 13) 5 0xA9E3E905
  let D := P F2 D A B C (X 2) 9 0xFCEFA3F8
  let C := P F2 C D A B (X 7) 14 0x676F02D9
  let B := P F2 B C D A (X 12) 20 0x8D2A4C8A
  let A := P F3 A B C D (X 5) 4 0xFFFA3942
  let D := P F3 D A B C (X 8) 11 0x8771F681
  let C := P F3 C D A B (X 11) 16 0x6D9D6122
  let B := P F3 B C D A (X 14) 23 0xFDE5380C
  let A := P F3 A B C D (X 1) 4 0xA4BEEA44
  let D := P F3 D A B C (X 4) 11 0x4BDECFA9
  let C := P F3 C D A B (X 7) 16 0xF6BB4B60
  let B := P F3 B C D A (X 10) 23 0xBEBFBC70
  let A := P F3 A B C D (X 13) 4 0x289B7EC6
  let D := P F3 D A B C (X 0) 11 0xEAA127FA
  let C := P F3 C D A B (X 3) 16 0xD4EF3085
  let B := P F3 B C D A (X 6) 23 0x04881D05
  let A := P F3 A B C D (X 9) 4 0xD9D4D039
  let D := P F3 D A B C (X 12) 11 0xE6DB99E5
  let C := P F3 C D A B (X 15) 16 0x1FA27CF8
  let B := P F3 B C D A (X 2) 23 0xC4AC5665
  let A := P F4 A B C D (X 0) 6 0xF4292244
  let D := P F4 D A B C (X 7) 10 0x432AFF97
  let C := P F4 C D A B (X 14) 15 0xAB9423A7
  let B := P F4 B C D A (X 5) 21 0xFC93A039
  let A := P F4 A B C D (X 12) 6 0x655B59C3
  let D := P F4 D A B C (X 3) 10 0x8F0CCC92
  let C := P F4 C D A B (X 10) 15 0xFFEFF47D
  let B := P F4 B C D A (X 1) 21 0x85845DD1
  let A := P F4 A B C D (X 8) 6 0x6FA87E4F
  let D := P F4 D A B C (X 15) 10 0xFE2CE6E0
  let C := P F4 C D A B (X 6) 15 0xA3014314
  let B := P F4 B C D A (X 13) 21 0x4E0811A1
  let A := P F4 A B C D (X 4) 6 0xF7537E82
  let D := P F4 D A B C (X 11) 10 0xBD3AF235
  let C := P F4 C D A B (X 2) 15 0x2AD7D2BB
  let B := P F4 B C D A (X 9) 21 0xEB86D391
  (A, B, C, D)

/-- The compression step `md5_process`: the registers are loaded from the
state, the rounds are run, and the registers are added back into the state. -/
def md5_process (ctx : md5_t) (data : List Nat) : md5_t :=
  let r := md5_rounds ctx.state0 ctx.state1 ctx.state2 ctx.state3 data
  { ctx with
    state0 := (ctx.state0 + r.1) % 2 ^ 32
    state1 := (ctx.state1 + r.2.1) % 2 ^ 32
    state2 := (ctx.state2 + r.2.2.1) % 2 ^ 32
    state3 := (ctx.state3 + r.2.2.2) % 2 ^ 32 }

/-- The effect of `memcpy (dst + off, src, n)` on a byte array `dst`, with
`n` the length of `src`. -/
def memcpy (dst : List Nat) (off : Nat) (src : List Nat) : List Nat :=
  dst.take off ++ src ++ dst.drop (off + src.length)

/-- The loop `while (ilen >= 64)` of `md5_update`: each turn compresses the
next 64 input bytes and advances the input pointer.  The first argument bounds
the number of turns; a turn consumes 64 bytes, so the length of the input is
always enough. -/
def md5_update_loop : Nat → md5_t → List Nat → md5_t × List Nat
  | 0, ctx, input => (ctx, input)
  | fuel + 1, ctx, input =>
    if input.length ≥ 64 then
      md5_update_loop fuel (md5_process ctx (input.take 64)) (input.drop 64)
    else (ctx, input)

/-- The streaming feed `md5_update (ctx, input, ilen)`; `ilen` is the length
of the list `input`. -/
def md5_update (ctx : md5_t) (input : List Nat) : md5_t :=
  let ilen := input.length
  if ilen ≤ 0 then ctx
  else
    let left := ctx.total0 &&& 0x3F
    let fill := 64 - left
    let t0 := ((ctx.total0 + ilen % 2 ^ 32) % 2 ^ 32) &&& 0xFFFFFFFF
    let t1 := if t0 < ilen % 2 ^ 32 then (ctx.total1 + 1) % 2 ^ 32 else ctx.total1
    let ctx := { ctx with total0 := t0, total1 := t1 }
    let r :=
      if left ≠ 0 ∧ ilen ≥ fill then
        let ctx := { ctx with buffer := memcpy ctx.buffer left (input.take fill) }
        (md5_process ctx ctx.buffer, input.drop fill, 0)
      else (ctx, input, left)
    let q := md5_update_loop r.2.1.length r.1 r.2.1
    if q.2.length > 0 then
      { q.1 with buffer := memcpy q.1.buffer r.2.2 q.2 }
    else q.1

/-- The finalisation `md5_finish`: the context it leaves and the 16 bytes it
writes to `output`. -/
def md5_finish (ctx : md5_t) : md5_t × List Nat :=
  let high := ((ctx.total0 >>> 29) ||| ((ctx.total1 <<< 3) % 2 ^ 32))
  let low := (ctx.total0 <<< 3) % 2 ^ 32
  let msglen := PUT_UINT32_LE low ++ PUT_UINT32_LE high
  let last := ctx.total0 &&& 0x3F
  let padn := if last < 56 then 56 - last else 120 - last
  let ctx := md5_update ctx (md5_padding.take padn)
  let ctx := md5_update ctx msglen
  (ctx, PUT_UINT32_LE ctx.state0 ++ PUT_UINT32_LE ctx.state1
    ++ PUT_UINT32_LE ctx.state2 ++ PUT_UINT32_LE ctx.state3)

/-- The public function `md5 (input, ilen, output)`: the bytes written to
`output`.  The argument `ctx` is the content of the local context variable
before `md5_pre` runs on it; the closing `memset` clears that local variable
and leaves the output alone. -/
def md5 (ctx : md5_t) (input : List Nat) : List Nat :=
  (md5_finish (md5_update (md5_pre ctx) input)).2

/-- The four state words of a context. -/
def words (c : md5_t) : Nat × Nat × Nat × Nat :=
  (c.state0, c.state1, c.state2, c.state3)

/-- The little-endian serialisation of four state words, as `md5_finish`
writes it. -/
def digest_of (w : Nat × Nat × Nat × Nat) : List Nat :=
  PUT_UINT32_LE w.1 ++ PUT_UINT32_LE w.2.1 ++ PUT_UINT32_LE w.2.2.1 ++ PUT_UINT32_LE w.2.2.2

/-- The consecutive complete 64-byte blocks of a byte sequence. -/
def blocks64 (l : List Nat) : List (List Nat) :=
  (List.range (l.length / 64)).map (fun i => (l.drop (64 * i)).take 64)

/-- The bytes left over after the complete 64-byte blocks. -/
def rest64 (l : List Nat) : List Nat := l.drop (64 * (l.length / 64))

/-- Folding the compression step over the complete blocks of `data`. -/
def absorb (c : md5_t) (data : List Nat) : md5_t :=
  (blocks64 data).foldl md5_process c

/-- The occupied prefix of the staging buffer. -/
def pending (c : md5_t) : List Nat := c.buffer.take (c.total0 % 64)

/-- A context value used to run the code on concrete inputs. -/
def ctx_zero : md5_t := ⟨0, 0, 0, 0, 0, 0, List.replicate 64 0⟩

/-- The context `md5_update` works on once the counter has been advanced. -/
def counted (c : md5_t) (ilen : Nat) : md5_t :=
  { c with
    total0 := (c.total0 + ilen) % 2 ^ 32
    total1 := if (c.total0 + ilen) % 2 ^ 32 < ilen % 2 ^ 32 then (c.total1 + 1) % 2 ^ 32
      else c.total1 }

/-- The closing copy of `md5_update`: the `tail` bytes left after the block
loop are stored in the buffer at offset `left`. -/
def store_tail (c : md5_t) (left : Nat) (tail : List Nat) : md5_t :=
  if tail.length > 0 then { c with buffer := memcpy c.buffer left tail } else c

/-- The padding length `padn` chosen by `md5_finish`. -/
def padn_of (c : md5_t) : Nat :=
  if c.total0 &&& 0x3F < 56 then 56 - (c.total0 &&& 0x3F) else 120 - (c.total0 &&& 0x3F)

/-- The eight bytes `msglen` built by `md5_finish`. -/
def msglen_of (c : md5_t) : List Nat :=
  PUT_UINT32_LE ((c.total0 <<< 3) % 2 ^ 32) ++
    PUT_UINT32_LE ((c.total0 >>> 29) ||| ((c.total1 <<< 3) % 2 ^ 32))

/-- The bytes `md5_finish` feeds through `md5_update`: padding, then length. -/
def finish_bytes (c : md5_t) : List Nat :=
  md5_padding.take (padn_of c) ++ msglen_of c

/-- Two contexts agree on the state words, on the counter and on the occupied
prefix of their 64-byte buffers. -/
def same_view (c c' : md5_t) : Prop :=
  c.buffer.length = 64 ∧ c'.buffer.length = 64 ∧ words c = words c' ∧
    c.total0 = c'.total0 ∧ c.total1 = c'.total1 ∧ pending c = pending c'

/-- Calling `md5_update` on each chunk in order. -/
def feed (c : md5_t) (chunks : List (List Nat)) : md5_t :=
  chunks.foldl md5_update c

/-- The byte counter of a context read as one number. -/
def counter (c : md5_t) : Nat := c.total0 + 2 ^ 32 * c.total1

/-- The little-endian encoding of `n` on `count` bytes. -/
def le_bytes : Nat → Nat → List Nat
  | 0, _ => []
  | count + 1, n => n % 256 :: le_bytes count (n / 256)

/-- A context holding the four initial constants of RFC 1321. -/
def md5_iv : md5_t := ⟨0, 0, 0x67452301, 0xEFCDAB89, 0x98BADCFE, 0x10325476, []⟩

/-- The padded message of RFC 1321 with `k` zero bytes: the message, one byte
`0x80`, `k` zero bytes, and the bit length on eight little-endian bytes. -/
def rfc1321_padded (b : List Nat) (k : Nat) : List Nat :=
  b ++ [0x80] ++ List.replicate k 0 ++ le_bytes 8 (8 * b.length)

/-- The reference digest: the compression step folded over the consecutive
64-byte blocks of the padded message, starting from the initial constants, and
the four resulting state words serialised in little-endian order. -/
def rfc1321_digest (b : List Nat) (k : Nat) : List Nat :=
  let c := (blocks64 (rfc1321_padded b k)).foldl md5_process md5_iv
  le_bytes 4 c.state0 ++ le_bytes 4 c.state1 ++ le_bytes 4 c.state2 ++ le_bytes 4 c.state3

/-- The ASCII bytes of "abc". -/
def msg_abc : List Nat := [0x61, 0x62, 0x63]

/-- The ASCII bytes of "abcdefghijklmnopqrstuvwxyz". -/
def msg_alphabet : List Nat :=
  [0x61, 0x62, 0x63, 0x64, 0x65, 0x66, 0x67, 0x68, 0x69, 0x6a, 0x6b, 0x6c, 0x6d,
   0x6e, 0x6f, 0x70, 0x71, 0x72, 0x73, 0x74, 0x75, 0x76, 0x77, 0x78, 0x79, 0x7a]

/-- A span of `2^31` zero bytes. -/
def span_2GiB : List Nat := List.replicate (2 ^ 31) 0

/-- The final block compressed by the one-shot run on `2^32` bytes: padding
and the bit length 0. -/
def block_len_0 : List Nat := md5_padding.take 56 ++ [0, 0, 0, 0, 0, 0, 0, 0]

/-- The final block of a message of `2^32` bytes: padding and the bit length
`2^35`, least significant byte first. -/
def block_len_2p35 : List Nat := md5_padding.take 56 ++ [0, 0, 0, 0, 8, 0, 0, 0]

/-- The state word `state[i]` of a context, for `i` in `0..3`. -/
def state_word (c : md5_t) (i : Nat) : Nat :=
  match i with
  | 0 => c.state0
  | 1 => c.state1
  | 2 => c.state2
  | _ => c.state3

/-- All four words are below `2^32`. -/
def words_lt (w : Nat × Nat × Nat × Nat) : Prop :=
  w.1 < 2 ^ 32 ∧ w.2.1 < 2 ^ 32 ∧ w.2.2.1 < 2 ^ 32 ∧ w.2.2.2 < 2 ^ 32

/-! ### Cross-correlation (src/dsp/xcorr.c) -/

/-- The value of a C `int` expression whose exact result is `z`: the 32-bit
two's complement integer congruent to `z` modulo `2^32`.  It is `z` itself
when `z` lies in the range of `int`; an overflow wraps around. -/
def wrap32 (z : Int) : Int := (z + 2 ^ 31) % 2 ^ 32 - 2 ^ 31

/-- A read `a[i]` of an `int` array with the index `i` an `int`: `none` when
the index is negative or past the end of the array. -/
def read_at (a : List Int) (i : Int) : Option Int :=
  if i < 0 then none else a[i.toNat]?

/-- The inner loop of `_corr_body_r`:
`for (y[n]=0, k=kmin; k<=kmax; ++k) y[n] += t[k] * x[sx-(n-k)];`
started at `k` with the running value `acc` of `y[n]`; the product, the sum
and the index expressions are `int` operations.  The first argument bounds
the number of turns; the result is `none` when a read is out of range or when
the bound is used up before `k` passes `kmax`. -/
def corr_sum (t x : List Int) (sx n kmax : Int) : Nat → Int → Int → Option Int
  | 0, k, acc => if k ≤ kmax then none else some acc
  | fuel + 1, k, acc =>
    if k ≤ kmax then
      match read_at t k, read_at x (wrap32 (sx - wrap32 (n - k))) with
      | some a, some b =>
        corr_sum t x sx n kmax fuel (wrap32 (k + 1)) (wrap32 (acc + wrap32 (a * b)))
      | _, _ => none
    else some acc

/-- The outer loop of `_corr_body_r`, `for (n=0; n<sy; ++n)`, from the index
`n` on with `m` turns left: the values written to `y[n], y[n+1], ...`.  Here
`sx` and `st` are the last indices, after `--sx; --st;`. -/
def corr_rows (t x : List Int) (sx st : Int) : Nat → Int → Option (List Int)
  | 0, _ => some []
  | m + 1, n =>
    let kmax := if wrap32 (n - st) < 0 then n else st
    let kmin := if wrap32 (n - sx) > 0 then wrap32 (n - sx) else 0
    match corr_sum t x sx n kmax (kmax + 1 - kmin).toNat kmin 0 with
    | none => none
    | some v =>
      match corr_rows t x sx st m (wrap32 (n + 1)) with
      | none => none
      | some vs => some (v :: vs)

/-- The function `xcorr_i (y, t, st, x, sx)`: the `sy = sx + st - 1` values
written to `y[0..sy-1]`, or `none` when an array is read out of range.  Every
`int` operation of the C code is reduced to the range of `int` by `wrap32`. -/
def xcorr_i (t : List Int) (st : Int) (x : List Int) (sx : Int) : Option (List Int) :=
  let sy := wrap32 (wrap32 (sx + st) - 1)
  let sx := wrap32 (sx - 1)
  let st := wrap32 (st - 1)
  corr_rows t x sx st sy.toNat 0

/-- The element `a[i]` of an array taken as zero outside its index range. -/
def zero_ext (a : List Int) (i : Int) : Int :=
  if i < 0 then 0 else a.getD i.toNat 0

/-- The cross-correlation as documented above `xcorr_i`:
`(t*x)[n] = Sum over m = 0 .. st-1 of t[m] * x[n+m]`, with `x` zero outside
its index range. -/
def xcorr_documented (t x : List Int) (n : Nat) : Int :=
  ((List.range t.length).map (fun m => zero_ext t m * zero_ext x (n + m))).sum

/-- The value the code leaves in `y[n]`, as a sum over the target indices:
the sum of `t[k] * x[k + (sx-1-n)]` over all `k` with `0 <= k < st` and
`0 <= k + (sx-1-n) < sx`, where `st` and `sx` are the sizes of `t` and `x`. -/
def corr_value (t x : List Int) (n : Nat) : Int :=
  ∑ k in (Finset.range t.length).filter
      (fun k : Nat => 0 ≤ (k : Int) + ((x.length : Int) - 1 - n) ∧
        (k : Int) + ((x.length : Int) - 1 - n) < x.length),
    zero_ext t k * zero_ext x ((k : Int) + ((x.length : Int) - 1 - n))

/-- The full linear convolution of `t` with `r` at index `n`: the sum of
`t[k] * r[n-k]` over all `k` with `0 <= k < |t|` and `0 <= n-k < |r|`. -/
def conv_value (t r : List Int) (n : Nat) : Int :=
  ∑ k in (Finset.range t.length).filter (fun k : Nat => k ≤ n ∧ n - k < r.length),
    t.getD k 0 * r.getD (n - k) 0

/-- The complement of a 32-bit word. -/
def not32 (x : Nat) : Nat := 0xFFFFFFFF - x

/-- The function `F` of RFC 1321: `(x & y) | (~x & z)`. -/
def rfc_F (x y z : Nat) : Nat := (x &&& y) ||| (not32 x &&& z)

/-- The function `G` of RFC 1321: `(x & z) | (y & ~z)`. -/
def rfc_G (x y z : Nat) : Nat := (x &&& z) ||| (y &&& not32 z)

/-- The function `H` of RFC 1321: `x ^ y ^ z`. -/
def rfc_H (x y z : Nat) : Nat := x ^^^ y ^^^ z

/-- The function `I` of RFC 1321: `y ^ (x | ~z)`. -/
def rfc_I (x y z : Nat) : Nat := y ^^^ (x ||| not32 z)

/-- Left rotation of a 32-bit word `x` by `n` bits: the low `32 - n` bits move
up by `n` places and the high `n` bits come down to the bottom. -/
def rotl32 (x n : Nat) : Nat := (x * 2 ^ n) % 2 ^ 32 + x / 2 ^ (32 - n)

/-- The round function in force in phase `p` (1 to 4) of `md5_process`. -/
def code_F (p : Nat) : Nat → Nat → Nat → Nat :=
  match p with
  | 1 => F1
  | 2 => F2
  | 3 => F3
  | _ => F4

/-- The 64 calls of `P` in `md5_process`, in the order of the source: phase,
word index `k`, rotation amount `s` and constant `t` of each call. -/
def code_steps : List (Nat × Nat × Nat × Nat) :=
  [(1, 0, 7, 0xD76AA478),
   (1, 1, 12, 0xE8C7B756),
   (1, 2, 17, 0x242070DB),
   (1, 3, 22, 0xC1BDCEEE),
   (1, 4, 7, 0xF57C0FAF),
   (1, 5, 12, 0x4787C62A),
   (1, 6, 17, 0xA8304613),
   (1, 7, 22, 0xFD469501),
   (1, 8, 7, 0x698098D8),
   (1, 9, 12, 0x8B44F7AF),
   (1, 10, 17, 0xFFFF5BB1),
   (1, 11, 22, 0x895CD7BE),
   (1, 12, 7, 0x6B901122),
   (1, 13, 12, 0xFD987193),
   (1, 14, 17, 0xA679438E),
   (1, 15, 22, 0x49B40821),
   (2, 1, 5, 0xF61E2562),
   (2, 6, 9, 0xC040B340),
   (2, 11, 14, 0x265E5A51),
   (2, 0, 20, 0xE9B6C7AA),
   (2, 5, 5, 0xD62F105D),
   (2, 10, 9, 0x02441453),
   (2, 15, 14, 0xD8A1E681),
   (2, 4, 20, 0xE7D3FBC8),
   (2, 9, 5, 0x21E1CDE6),
   (2, 14, 9, 0xC33707D6),
   (2, 3, 14, 0xF4D50D87),
   (2, 8, 20, 0x455A14ED),
   (2, 13, 5, 0xA9E3E905),
   (2, 2, 9, 0xFCEFA3F8),
   (2, 7, 14, 0x676F02D9),
   (2, 12, 20, 0x8D2A4C8A),
   (3, 5, 4, 0xFFFA3942),
   (3, 8, 11, 0x8771F681),
   (3, 11, 16, 0x6D9D6122),
   (3, 14, 23, 0xFDE5380C),
   (3, 1, 4, 0xA4BEEA44),
   (3, 4, 11, 0x4BDECFA9),
   (3, 7, 16, 0xF6BB4B60),
   (3, 10, 23, 0xBEBFBC70),
   (3, 13, 4, 0x289B7EC6),
   (3, 0, 11, 0xEAA127FA),
   (3, 3, 16, 0xD4EF3085),
   (3, 6, 23, 0x04881D05),
   (3, 9, 4, 0xD9D4D039),
   (3, 12, 11, 0xE6DB99E5),
   (3, 15, 16, 0x1FA27CF8),
   (3, 2, 23, 0xC4AC5665),
   (4, 0, 6, 0xF4292244),
   (4, 7, 10, 0x432AFF97),
   (4, 14, 15, 0xAB9423A7),
   (4, 5, 21, 0xFC93A039),
   (4, 12, 6, 0x655B59C3),
   (4, 3, 10, 0x8F0CCC92),
   (4, 10, 15, 0xFFEFF47D),
   (4, 1, 21, 0x85845DD1),
   (4, 8, 6, 0x6FA87E4F),
   (4, 15, 10, 0xFE2CE6E0),
   (4, 6, 15, 0xA3014314),
   (4, 13, 21, 0x4E0811A1),
   (4, 4, 6, 0xF7537E82),
   (4, 11, 10, 0xBD3AF235),
   (4, 2, 15, 0x2AD7D2BB),
   (4, 9, 21, 0xEB86D391)]

/-- One call of `P` seen on the register tuple `(a, b, c, d)` in the order of
its arguments: the call assigns `a`, and the next call takes the registers in
the order `(d, a, b, c)`. -/
def code_step (X : Nat → Nat) (r : Nat × Nat × Nat × Nat) (e : Nat × Nat × Nat × Nat) :
    Nat × Nat × Nat × Nat :=
  (r.2.2.2, P (code_F e.1) r.1 r.2.1 r.2.2.1 r.2.2.2 (X e.2.1) e.2.2.1 e.2.2.2, r.2.1, r.2.2.1)

/-- The 64 additive constants `K[0..63]`, in the order of the rounds. -/
def rfc_K : List Nat :=
  [
   0xD76AA478, 0xE8C7B756, 0x242070DB, 0xC1BDCEEE,
   0xF57C0FAF, 0x4787C62A, 0xA8304613, 0xFD469501,
   0x698098D8, 0x8B44F7AF, 0xFFFF5BB1, 0x895CD7BE,
   0x6B901122, 0xFD987193, 0xA679438E, 0x49B40821,
   0xF61E2562, 0xC040B340, 0x265E5A51, 0xE9B6C7AA,
   0xD62F105D, 0x02441453, 0xD8A1E681, 0xE7D3FBC8,
   0x21E1CDE6, 0xC33707D6, 0xF4D50D87, 0x455A14ED,
   0xA9E3E905, 0xFCEFA3F8, 0x676F02D9, 0x8D2A4C8A,
   0xFFFA3942, 0x8771F681, 0x6D9D6122, 0xFDE5380C,
   0xA4BEEA44, 0x4BDECFA9, 0xF6BB4B60, 0xBEBFBC70,
   0x289B7EC6, 0xEAA127FA, 0xD4EF3085, 0x04881D05,
   0xD9D4D039, 0xE6DB99E5, 0x1FA27CF8, 0xC4AC5665,
   0xF4292244, 0x432AFF97, 0xAB9423A7, 0xFC93A039,
   0x655B59C3, 0x8F0CCC92, 0xFFEFF47D, 0x85845DD1,
   0x6FA87E4F, 0xFE2CE6E0, 0xA3014314, 0x4E0811A1,
   0xF7537E82, 0xBD3AF235, 0x2AD7D2BB, 0xEB86D391]

/-- The rotation amount `s[i]` of round `i`: `7, 12, 17, 22` in the first
phase, `5, 9, 14, 20` in the second, `4, 11, 16, 23` in the third and
`6, 10, 15, 21` in the fourth, cycled within each phase. -/
def rfc_s (i : Nat) : Nat :=
  match i / 16 with
  | 0 => [7, 12, 17, 22].getD (i % 4) 0
  | 1 => [5, 9, 14, 20].getD (i % 4) 0
  | 2 => [4, 11, 16, 23].getD (i % 4) 0
  | _ => [6, 10, 15, 21].getD (i % 4) 0

/-- The message word index `g(i)` of round `i`: `i`, `(5i+1) mod 16`,
`(3i+5) mod 16` and `7i mod 16` in the four phases. -/
def rfc_g (i : Nat) : Nat :=
  match i / 16 with
  | 0 => i
  | 1 => (5 * i + 1) % 16
  | 2 => (3 * i + 5) % 16
  | _ => (7 * i) % 16

/-- The round function of phase `q` (0 to 3): `F`, `G`, `H`, `I`. -/
def rfc_phase (q : Nat) : Nat → Nat → Nat → Nat :=
  match q with
  | 0 => rfc_F
  | 1 => rfc_G
  | 2 => rfc_H
  | _ => rfc_I

/-- The little-endian word `X[k]` of a block of bytes. -/
def le_word (block : List Nat) (k : Nat) : Nat :=
  block.getD (4 * k) 0 + block.getD (4 * k + 1) 0 * 2 ^ 8 + block.getD (4 * k + 2) 0 * 2 ^ 16
    + block.getD (4 * k + 3) 0 * 2 ^ 24

/-- Round `i` of the table-driven compression function:
`(a, b, c, d) := (d, b + rotl32 (a + f_i (b, c, d) + X[g(i)] + K[i], s[i]), b, c)`. -/
def rfc_round (X : Nat → Nat) (r : Nat × Nat × Nat × Nat) (i : Nat) : Nat × Nat × Nat × Nat :=
  (r.2.2.2,
    (r.2.1 + rotl32 ((r.1 + rfc_phase (i / 16) r.2.1 r.2.2.1 r.2.2.2 + X (rfc_g i)
      + rfc_K.getD i 0) % 2 ^ 32) (rfc_s i)) % 2 ^ 32,
    r.2.1, r.2.2.1)

/-- The table-driven compression function of RFC 1321: the rounds
`i = 0..63` run on the four registers loaded from the state, which are then
added to the state modulo `2^32`. -/
def rfc_compress (s : Nat × Nat × Nat × Nat) (block : List Nat) : Nat × Nat × Nat × Nat :=
  let r := (List.range 64).foldl (rfc_round (le_word block)) s
  ((s.1 + r.1) % 2 ^ 32, (s.2.1 + r.2.1) % 2 ^ 32, (s.2.2.1 + r.2.2.1) % 2 ^ 32,
    (s.2.2.2 + r.2.2.2) % 2 ^ 32)

theorem md5_process_total0 (c : md5_t) (d : List Nat) : (md5_process c d).total0 = c.total0 := by
  simp only [md5_process]

theorem md5_process_total1 (c : md5_t) (d : List Nat) : (md5_process c d).total1 = c.total1 := by
  simp only [md5_process]

theorem md5_process_buffer (c : md5_t) (d : List Nat) : (md5_process c d).buffer = c.buffer := by
  simp only [md5_process]

theorem md5_process_words (c c' : md5_t) (d : List Nat) (h : words c = words c') :
    words (md5_process c d) = words (md5_process c' d) := by
  simp only [words, Prod.mk.injEq] at h
  obtain ⟨h0, h1, h2, h3⟩ := h
  simp only [words, md5_process, h0, h1, h2, h3]

theorem md5_process_length (c : md5_t) (d : List Nat) :
    (md5_process c d).buffer.length = c.buffer.length := by
  rw [md5_process_buffer]

/-! ### Blocks of a byte sequence -/

theorem blocks64_of_lt (l : List Nat) (h : l.length < 64) : blocks64 l = [] := by
  have h0 : l.length / 64 = 0 := by omega
  simp [blocks64, h0]

theorem blocks64_of_le (l : List Nat) (h : 64 ≤ l.length) :
    blocks64 l = l.take 64 :: blocks64 (l.drop 64) := by
  have h1 : l.length / 64 = (l.length - 64) / 64 + 1 := by omega
  simp only [blocks64, h1, List.length_drop, List.range_succ_eq_map, List.map_cons,
    List.map_map, Nat.mul_zero, List.drop_zero]
  congr 1
  apply List.map_congr_left
  intro i _
  simp only [Function.comp_apply, List.drop_drop, Nat.succ_eq_add_one, Nat.mul_add, Nat.mul_one]
  rw [Nat.add_comm]

theorem rest64_of_lt (l : List Nat) (h : l.length < 64) : rest64 l = l := by
  have h0 : l.length / 64 = 0 := by omega
  simp [rest64, h0]

theorem rest64_of_le (l : List Nat) (h : 64 ≤ l.length) : rest64 l = rest64 (l.drop 64) := by
  have h1 : 64 * (l.length / 64) = 64 + 64 * ((l.length - 64) / 64) := by omega
  simp only [rest64, List.length_drop, List.drop_drop, h1]

theorem length_rest64 (l : List Nat) : (rest64 l).length = l.length % 64 := by
  simp only [rest64, List.length_drop]
  omega

theorem absorb_of_lt (c : md5_t) (l : List Nat) (h : l.length < 64) : absorb c l = c := by
  simp [absorb, blocks64_of_lt l h]

theorem absorb_of_le (c : md5_t) (l : List Nat) (h : 64 ≤ l.length) :
    absorb c l = absorb (md5_process c (l.take 64)) (l.drop 64) := by
  simp [absorb, blocks64_of_le l h]

theorem blocks64_append (x y : List Nat) :
    blocks64 (x ++ y) = blocks64 x ++ blocks64 (rest64 x ++ y) := by
  generalize h : x.length = n
  induction n using Nat.strong_induction_on generalizing x with
  | _ n ih =>
    by_cases hx : x.length < 64
    · rw [blocks64_of_lt x hx, rest64_of_lt x hx, List.nil_append]
    · have hx' : 64 ≤ x.length := by omega
      have hxy : 64 ≤ (x ++ y).length := by simp only [List.length_append]; omega
      rw [blocks64_of_le _ hxy, blocks64_of_le x hx', rest64_of_le x hx',
        List.take_append_of_le_length hx', List.drop_append_of_le_length hx', List.cons_append]
      congr 1
      exact ih (x.length - 64) (by omega) (x.drop 64) (by simp)

theorem absorb_append (c : md5_t) (x y : List Nat) :
    absorb c (x ++ y) = absorb (absorb c x) (rest64 x ++ y) := by
  unfold absorb
  rw [blocks64_append, List.foldl_append]

theorem rest64_append (x y : List Nat) : rest64 (x ++ y) = rest64 (rest64 x ++ y) := by
  generalize h : x.length = n
  induction n using Nat.strong_induction_on generalizing x with
  | _ n ih =>
    by_cases hx : x.length < 64
    · rw [rest64_of_lt x hx]
    · have hx' : 64 ≤ x.length := by omega
      have hxy : 64 ≤ (x ++ y).length := by simp only [List.length_append]; omega
      rw [rest64_of_le _ hxy, rest64_of_le x hx', List.drop_append_of_le_length hx']
      exact ih (x.length - 64) (by omega) (x.drop 64) (by simp)

theorem absorb_total0 (c : md5_t) (l : List Nat) : (absorb c l).total0 = c.total0 := by
  unfold absorb
  induction blocks64 l generalizing c with
  | nil => rfl
  | cons b bs ih => rw [List.foldl_cons, ih, md5_process_total0]

theorem absorb_total1 (c : md5_t) (l : List Nat) : (absorb c l).total1 = c.total1 := by
  unfold absorb
  induction blocks64 l generalizing c with
  | nil => rfl
  | cons b bs ih => rw [List.foldl_cons, ih, md5_process_total1]

theorem absorb_buffer (c : md5_t) (l : List Nat) : (absorb c l).buffer = c.buffer := by
  unfold absorb
  induction blocks64 l generalizing c with
  | nil => rfl
  | cons b bs ih => rw [List.foldl_cons, ih, md5_process_buffer]

theorem absorb_words (c c' : md5_t) (l : List Nat) (h : words c = words c') :
    words (absorb c l) = words (absorb c' l) := by
  unfold absorb
  induction blocks64 l generalizing c c' with
  | nil => exact h
  | cons b bs ih =>
    rw [List.foldl_cons, List.foldl_cons]
    exact ih _ _ (md5_process_words c c' b h)

/-! ### The block loop of the streaming feed -/

theorem md5_update_loop_eq (fuel : Nat) (c : md5_t) (inp : List Nat)
    (h : inp.length / 64 ≤ fuel) :
    md5_update_loop fuel c inp = (absorb c inp, rest64 inp) := by
  induction fuel generalizing c inp with
  | zero =>
    have hlt : inp.length < 64 := by omega
    simp only [md5_update_loop, absorb_of_lt c inp hlt, rest64_of_lt inp hlt]
  | succ n ih =>
    by_cases hle : 64 ≤ inp.length
    · have hn : (inp.drop 64).length / 64 ≤ n := by
        simp only [List.length_drop]
        omega
      simp only [md5_update_loop, ge_iff_le, hle, if_true]
      rw [ih _ _ hn, absorb_of_le c inp hle, rest64_of_le inp hle]
    · have hlt : inp.length < 64 := by omega
      simp only [md5_update_loop, ge_iff_le, hle, if_false, absorb_of_lt c inp hlt,
        rest64_of_lt inp hlt]

/-! ### The streaming feed -/

theorem and_3F (n : Nat) : n &&& 0x3F = n % 64 :=
  Nat.and_pow_two_sub_one_eq_mod n 6

theorem and_FFFFFFFF (n : Nat) : n &&& 0xFFFFFFFF = n % 2 ^ 32 :=
  Nat.and_pow_two_sub_one_eq_mod n 32

theorem md5_update_nil (c : md5_t) : md5_update c [] = c := by
  simp [md5_update]

theorem md5_update_of_fill (c : md5_t) (inp : List Nat) (hpos : 0 < inp.length)
    (h0 : c.total0 % 64 ≠ 0) (hfill : 64 - c.total0 % 64 ≤ inp.length) :
    md5_update c inp =
      store_tail
        (absorb
          (md5_process
            { counted c inp.length with
              buffer := memcpy c.buffer (c.total0 % 64) (inp.take (64 - c.total0 % 64)) }
            (memcpy c.buffer (c.total0 % 64) (inp.take (64 - c.total0 % 64))))
          (inp.drop (64 - c.total0 % 64)))
        0 (rest64 (inp.drop (64 - c.total0 % 64))) := by
  have hne : ¬ inp.length ≤ 0 := by omega
  unfold md5_update
  simp only [hne, if_false, and_3F, and_FFFFFFFF, ne_eq, h0, not_false_eq_true, ge_iff_le, hfill,
    and_self, if_true]
  rw [md5_update_loop_eq _ _ _ (Nat.div_le_self _ _)]
  simp only [Nat.mod_mod, Nat.add_mod_mod, counted, store_tail]

theorem md5_update_of_not_fill (c : md5_t) (inp : List Nat) (hpos : 0 < inp.length)
    (h : ¬ (c.total0 % 64 ≠ 0 ∧ 64 - c.total0 % 64 ≤ inp.length)) :
    md5_update c inp =
      store_tail (absorb (counted c inp.length) inp) (c.total0 % 64) (rest64 inp) := by
  have hne : ¬ inp.length ≤ 0 := by omega
  unfold md5_update
  simp only [hne, if_false, and_3F, and_FFFFFFFF, ne_eq, ge_iff_le]
  rw [if_neg h]
  simp only []
  rw [md5_update_loop_eq _ _ _ (Nat.div_le_self _ _)]
  simp only [Nat.mod_mod, Nat.add_mod_mod, counted, store_tail]

theorem mod_mod_64 (a : Nat) : a % 2 ^ 32 % 64 = a % 64 :=
  Nat.mod_mod_of_dvd a ⟨2 ^ 26, by norm_num⟩

theorem memcpy_length (dst src : List Nat) (off : Nat) (h : off + src.length ≤ dst.length) :
    (memcpy dst off src).length = dst.length := by
  simp only [memcpy, List.length_append, List.length_take, List.length_drop]
  omega

theorem take_memcpy (dst src : List Nat) (off : Nat) (h : off ≤ dst.length) :
    (memcpy dst off src).take (off + src.length) = dst.take off ++ src := by
  unfold memcpy
  apply List.take_left'
  simp only [List.length_append, List.length_take]
  omega

theorem memcpy_fill (dst src : List Nat) (off : Nat) (h : off + src.length = dst.length) :
    memcpy dst off src = dst.take off ++ src := by
  unfold memcpy
  rw [List.drop_of_length_le (by omega), List.append_nil]

theorem length_pending (c : md5_t) (hb : c.buffer.length = 64) :
    (pending c).length = c.total0 % 64 := by
  simp only [pending, List.length_take, hb]
  omega

theorem words_counted (c : md5_t) (n : Nat) : words (counted c n) = words c := rfl

theorem words_store_tail (c : md5_t) (left : Nat) (tail : List Nat) :
    words (store_tail c left tail) = words c := by
  unfold store_tail
  split <;> rfl

theorem total0_store_tail (c : md5_t) (left : Nat) (tail : List Nat) :
    (store_tail c left tail).total0 = c.total0 := by
  unfold store_tail
  split <;> rfl

theorem total1_store_tail (c : md5_t) (left : Nat) (tail : List Nat) :
    (store_tail c left tail).total1 = c.total1 := by
  unfold store_tail
  split <;> rfl

theorem buffer_store_tail (c : md5_t) (left : Nat) (tail : List Nat) :
    (store_tail c left tail).buffer = memcpy c.buffer left tail ∨
      (tail = [] ∧ (store_tail c left tail).buffer = c.buffer) := by
  unfold store_tail
  split
  · exact Or.inl rfl
  · rename_i h
    refine Or.inr ⟨?_, rfl⟩
    exact List.length_eq_zero.mp (by omega)

theorem length_store_tail (c : md5_t) (left : Nat) (tail : List Nat)
    (h : left + tail.length ≤ c.buffer.length) :
    (store_tail c left tail).buffer.length = c.buffer.length := by
  rcases buffer_store_tail c left tail with h1 | ⟨_, h1⟩
  · rw [h1, memcpy_length _ _ _ h]
  · rw [h1]

theorem take_store_tail (c : md5_t) (left : Nat) (tail : List Nat) (h : left ≤ c.buffer.length) :
    (store_tail c left tail).buffer.take (left + tail.length) = c.buffer.take left ++ tail := by
  rcases buffer_store_tail c left tail with h1 | ⟨h0, h1⟩
  · rw [h1, take_memcpy _ _ _ h]
  · rw [h1, h0, List.length_nil, Nat.add_zero, List.append_nil]

theorem md5_update_total0 (c : md5_t) (inp : List Nat) (hpos : 0 < inp.length) :
    (md5_update c inp).total0 = (c.total0 + inp.length) % 2 ^ 32 := by
  by_cases h : c.total0 % 64 ≠ 0 ∧ 64 - c.total0 % 64 ≤ inp.length
  · rw [md5_update_of_fill c inp hpos h.1 h.2, total0_store_tail, absorb_total0,
      md5_process_total0]
    rfl
  · rw [md5_update_of_not_fill c inp hpos h, total0_store_tail, absorb_total0]
    rfl

theorem md5_update_total1 (c : md5_t) (inp : List Nat) (hpos : 0 < inp.length) :
    (md5_update c inp).total1 =
      if (c.total0 + inp.length) % 2 ^ 32 < inp.length % 2 ^ 32 then (c.total1 + 1) % 2 ^ 32
      else c.total1 := by
  by_cases h : c.total0 % 64 ≠ 0 ∧ 64 - c.total0 % 64 ≤ inp.length
  · rw [md5_update_of_fill c inp hpos h.1 h.2, total1_store_tail, absorb_total1,
      md5_process_total1]
    rfl
  · rw [md5_update_of_not_fill c inp hpos h, total1_store_tail, absorb_total1]
    rfl

theorem md5_update_occupancy (c : md5_t) (inp : List Nat) :
    (md5_update c inp).total0 % 64 = (c.total0 % 64 + inp.length) % 64 := by
  by_cases hpos : 0 < inp.length
  · rw [md5_update_total0 c inp hpos, mod_mod_64]
    omega
  · have : inp = [] := List.length_eq_zero.mp (by omega)
    subst this
    rw [md5_update_nil]
    simp

/-- What a call of `md5_update` does, seen through the state words and the
occupied prefix of the buffer: the complete blocks of the pending bytes
followed by the input are compressed, and the left-over bytes are pending. -/
theorem md5_update_view (c : md5_t) (inp : List Nat) (hb : c.buffer.length = 64) :
    (md5_update c inp).buffer.length = 64 ∧
      words (md5_update c inp) = words (absorb c (pending c ++ inp)) ∧
      pending (md5_update c inp) = rest64 (pending c ++ inp) := by
  have hL : c.total0 % 64 < 64 := Nat.mod_lt _ (by norm_num)
  have hp : (pending c).length = c.total0 % 64 := length_pending c hb
  by_cases hpos : 0 < inp.length
  · have hocc := md5_update_occupancy c inp
    by_cases h : c.total0 % 64 ≠ 0 ∧ 64 - c.total0 % 64 ≤ inp.length
    · -- the buffer is filled up and compressed
      obtain ⟨h0, hfill⟩ := h
      have hlt : (inp.take (64 - c.total0 % 64)).length = 64 - c.total0 % 64 := by
        rw [List.length_take]
        omega
      have hB : memcpy c.buffer (c.total0 % 64) (inp.take (64 - c.total0 % 64)) =
          pending c ++ inp.take (64 - c.total0 % 64) :=
        memcpy_fill _ _ _ (by rw [hlt, hb]; omega)
      have hBlen : (pending c ++ inp.take (64 - c.total0 % 64)).length = 64 := by
        rw [List.length_append, hp, hlt]
        omega
      have hdata : pending c ++ inp =
          (pending c ++ inp.take (64 - c.total0 % 64)) ++ inp.drop (64 - c.total0 % 64) := by
        rw [List.append_assoc, List.take_append_drop]
      have hfold : absorb c (pending c ++ inp) =
          absorb (md5_process c (pending c ++ inp.take (64 - c.total0 % 64)))
            (inp.drop (64 - c.total0 % 64)) := by
        rw [hdata, absorb_of_le _ _ (by rw [List.length_append, hBlen]; omega),
          List.take_left' hBlen, List.drop_left' hBlen]
      have hrest : rest64 (pending c ++ inp) = rest64 (inp.drop (64 - c.total0 % 64)) := by
        rw [hdata, rest64_of_le _ (by rw [List.length_append, hBlen]; omega),
          List.drop_left' hBlen]
      have hrl := length_rest64 (inp.drop (64 - c.total0 % 64))
      rw [List.length_drop] at hrl
      have hocc2 : (md5_update c inp).total0 % 64 =
          0 + (rest64 (inp.drop (64 - c.total0 % 64))).length := by
        rw [hocc, hrl]
        omega
      have hupd := md5_update_of_fill c inp hpos h0 hfill
      have hbuf0 : (absorb (md5_process
            { counted c inp.length with
              buffer := memcpy c.buffer (c.total0 % 64) (inp.take (64 - c.total0 % 64)) }
            (memcpy c.buffer (c.total0 % 64) (inp.take (64 - c.total0 % 64))))
          (inp.drop (64 - c.total0 % 64))).buffer.length = 64 := by
        rw [absorb_buffer, md5_process_buffer]
        show (memcpy c.buffer (c.total0 % 64) (inp.take (64 - c.total0 % 64))).length = 64
        rw [hB, hBlen]
      refine ⟨?_, ?_, ?_⟩
      · rw [hupd, length_store_tail _ _ _ (by rw [hbuf0, hrl]; omega), hbuf0]
      · rw [hupd, words_store_tail, hfold, hB]
        exact absorb_words _ _ _ (md5_process_words _ _ _ rfl)
      · show (md5_update c inp).buffer.take ((md5_update c inp).total0 % 64) = _
        rw [hocc2]
        rw [hupd, take_store_tail _ _ _ (by omega), List.take_zero, List.nil_append, hrest]
    · -- no block is completed from the buffer
      have hupd := md5_update_of_not_fill c inp hpos h
      have hbuf0 : (absorb (counted c inp.length) inp).buffer = c.buffer := by
        rw [absorb_buffer]
        rfl
      have hrl := length_rest64 inp
      by_cases h0 : c.total0 % 64 = 0
      · have hpn : pending c = [] := List.length_eq_zero.mp (by rw [hp, h0])
        have hocc2 : (md5_update c inp).total0 % 64 = c.total0 % 64 + (rest64 inp).length := by
          rw [hocc, hrl, h0]
          omega
        refine ⟨?_, ?_, ?_⟩
        · rw [hupd, length_store_tail _ _ _ (by rw [hbuf0, hb, hrl, h0]; omega), hbuf0, hb]
        · rw [hupd, words_store_tail, hpn, List.nil_append]
          exact absorb_words _ _ _ rfl
        · show (md5_update c inp).buffer.take ((md5_update c inp).total0 % 64) = _
          rw [hocc2, hupd, take_store_tail _ _ _ (by rw [hbuf0, hb]; omega), hbuf0, h0,
            List.take_zero, List.nil_append, hpn, List.nil_append]
      · have hshort : inp.length < 64 - c.total0 % 64 := by
          by_contra hge
          exact h ⟨h0, by omega⟩
        have hi : inp.length < 64 := by omega
        have hd : (pending c ++ inp).length < 64 := by
          rw [List.length_append, hp]
          omega
        have hocc2 : (md5_update c inp).total0 % 64 = c.total0 % 64 + (rest64 inp).length := by
          rw [hocc, hrl]
          omega
        refine ⟨?_, ?_, ?_⟩
        · rw [hupd, length_store_tail _ _ _ (by rw [hbuf0, hb, hrl]; omega), hbuf0, hb]
        · rw [hupd, words_store_tail, absorb_of_lt _ _ hd, absorb_of_lt _ _ hi]
          rfl
        · show (md5_update c inp).buffer.take ((md5_update c inp).total0 % 64) = _
          rw [hocc2, hupd, take_store_tail _ _ _ (by rw [hbuf0, hb]; omega), hbuf0,
            rest64_of_lt _ hi, rest64_of_lt _ hd]
          rfl
  · have hnil : inp = [] := List.length_eq_zero.mp (by omega)
    subst hnil
    have hd : (pending c).length < 64 := by omega
    rw [md5_update_nil, List.append_nil, absorb_of_lt _ _ hd, rest64_of_lt _ hd]
    exact ⟨hb, rfl, rfl⟩

/-! ### Finalisation -/

theorem md5_finish_fst (c : md5_t) :
    (md5_finish c).1 = md5_update (md5_update c (md5_padding.take (padn_of c))) (msglen_of c) :=
  rfl

theorem md5_finish_snd (c : md5_t) : (md5_finish c).2 = digest_of (words (md5_finish c).1) :=
  rfl

theorem finish_bytes_congr (c c' : md5_t) (h0 : c.total0 = c'.total0)
    (h1 : c.total1 = c'.total1) : finish_bytes c = finish_bytes c' := by
  simp only [finish_bytes, padn_of, msglen_of, h0, h1]

theorem md5_finish_words (c : md5_t) (hb : c.buffer.length = 64) :
    words (md5_finish c).1 = words (absorb c (pending c ++ finish_bytes c)) := by
  obtain ⟨hb1, hw1, hp1⟩ := md5_update_view c (md5_padding.take (padn_of c)) hb
  obtain ⟨_, hw2, _⟩ := md5_update_view (md5_update c (md5_padding.take (padn_of c)))
    (msglen_of c) hb1
  rw [md5_finish_fst, hw2, hp1, finish_bytes, ← List.append_assoc, absorb_append c]
  exact absorb_words _ _ _ hw1

theorem md5_finish_digest (c : md5_t) (hb : c.buffer.length = 64) :
    (md5_finish c).2 = digest_of (words (absorb c (pending c ++ finish_bytes c))) := by
  rw [md5_finish_snd, md5_finish_words c hb]

/-! ### Contexts that agree on everything the code reads -/

theorem md5_update_total_congr (c c' : md5_t) (inp : List Nat) (h0 : c.total0 = c'.total0)
    (h1 : c.total1 = c'.total1) :
    (md5_update c inp).total0 = (md5_update c' inp).total0 ∧
      (md5_update c inp).total1 = (md5_update c' inp).total1 := by
  by_cases hpos : 0 < inp.length
  · rw [md5_update_total0 c inp hpos, md5_update_total0 c' inp hpos,
      md5_update_total1 c inp hpos, md5_update_total1 c' inp hpos, h0, h1]
    exact ⟨rfl, rfl⟩
  · have hnil : inp = [] := List.length_eq_zero.mp (by omega)
    subst hnil
    rw [md5_update_nil, md5_update_nil]
    exact ⟨h0, h1⟩

theorem same_view_update (c c' : md5_t) (inp : List Nat) (h : same_view c c') :
    same_view (md5_update c inp) (md5_update c' inp) := by
  obtain ⟨hb, hb', hw, h0, h1, hp⟩ := h
  obtain ⟨hl, hwu, hpu⟩ := md5_update_view c inp hb
  obtain ⟨hl', hwu', hpu'⟩ := md5_update_view c' inp hb'
  obtain ⟨ht0, ht1⟩ := md5_update_total_congr c c' inp h0 h1
  refine ⟨hl, hl', ?_, ht0, ht1, ?_⟩
  · rw [hwu, hwu', hp]
    exact absorb_words _ _ _ hw
  · rw [hpu, hpu', hp]

theorem same_view_finish (c c' : md5_t) (h : same_view c c') :
    (md5_finish c).2 = (md5_finish c').2 := by
  obtain ⟨hb, hb', hw, h0, h1, hp⟩ := h
  rw [md5_finish_digest c hb, md5_finish_digest c' hb', hp, finish_bytes_congr c c' h0 h1]
  exact congrArg digest_of (absorb_words _ _ _ hw)

theorem same_view_pre (c c' : md5_t) (hb : c.buffer.length = 64) (hb' : c'.buffer.length = 64) :
    same_view (md5_pre c) (md5_pre c') :=
  ⟨hb, hb', rfl, rfl, rfl, rfl⟩

/-- The digest does not depend on what the local context of `md5` held on
entry. -/
theorem md5_entry_irrelevant (c c' : md5_t) (b : List Nat) (hb : c.buffer.length = 64)
    (hb' : c'.buffer.length = 64) : md5 c b = md5 c' b :=
  same_view_finish _ _ (same_view_update _ _ b (same_view_pre c c' hb hb'))

/-! ### Feeding a message in chunks -/

theorem feed_view (c : md5_t) (chunks : List (List Nat)) (hb : c.buffer.length = 64) :
    (feed c chunks).buffer.length = 64 ∧
      words (feed c chunks) = words (absorb c (pending c ++ chunks.flatten)) ∧
      pending (feed c chunks) = rest64 (pending c ++ chunks.flatten) := by
  induction chunks generalizing c with
  | nil =>
    have hd : (pending c).length < 64 := by
      rw [length_pending c hb]
      exact Nat.mod_lt _ (by norm_num)
    simp only [feed, List.foldl_nil, List.flatten_nil, List.append_nil]
    rw [absorb_of_lt _ _ hd, rest64_of_lt _ hd]
    exact ⟨hb, rfl, rfl⟩
  | cons x xs ih =>
    obtain ⟨hl, hw, hp⟩ := md5_update_view c x hb
    obtain ⟨hl2, hw2, hp2⟩ := ih (md5_update c x) hl
    have hf : feed c (x :: xs) = feed (md5_update c x) xs := rfl
    rw [hf, List.flatten_cons, ← List.append_assoc]
    refine ⟨hl2, ?_, ?_⟩
    · rw [hw2, hp, absorb_append c (pending c ++ x)]
      exact absorb_words _ _ _ hw
    · rw [hp2, hp, ← rest64_append]

/-! ### The byte counter -/

theorem md5_update_counter (c : md5_t) (inp : List Nat) (h0 : c.total0 < 2 ^ 32)
    (h1 : c.total1 < 2 ^ 32) (hn : inp.length < 2 ^ 32) :
    counter (md5_update c inp) = (counter c + inp.length) % 2 ^ 64 ∧
      (md5_update c inp).total0 < 2 ^ 32 ∧ (md5_update c inp).total1 < 2 ^ 32 := by
  unfold counter
  by_cases hpos : 0 < inp.length
  · rw [md5_update_total0 c inp hpos, md5_update_total1 c inp hpos]
    norm_num at h0 h1 hn ⊢
    split_ifs <;> omega
  · have hnil : inp = [] := List.length_eq_zero.mp (by omega)
    subst hnil
    rw [md5_update_nil]
    norm_num at h0 h1 ⊢
    omega

theorem feed_counter (c : md5_t) (chunks : List (List Nat)) (h0 : c.total0 < 2 ^ 32)
    (h1 : c.total1 < 2 ^ 32) (hc : ∀ x ∈ chunks, x.length < 2 ^ 32) :
    counter (feed c chunks) = (counter c + chunks.flatten.length) % 2 ^ 64 ∧
      (feed c chunks).total0 < 2 ^ 32 ∧ (feed c chunks).total1 < 2 ^ 32 := by
  induction chunks generalizing c with
  | nil =>
    refine ⟨?_, h0, h1⟩
    simp only [feed, List.foldl_nil, List.flatten_nil, List.length_nil, Nat.add_zero]
    unfold counter
    norm_num at h0 h1 ⊢
    omega
  | cons x xs ih =>
    obtain ⟨hcx, h0x, h1x⟩ := md5_update_counter c x h0 h1 (hc x (List.mem_cons_self x xs))
    obtain ⟨hcs, h0s, h1s⟩ := ih (md5_update c x) h0x h1x
      (fun y hy => hc y (List.mem_cons_of_mem x hy))
    have hf : feed c (x :: xs) = feed (md5_update c x) xs := rfl
    rw [hf]
    refine ⟨?_, h0s, h1s⟩
    rw [hcs, hcx, List.flatten_cons, List.length_append, Nat.mod_add_mod, Nat.add_assoc]

theorem length_le_flatten (chunks : List (List Nat)) (x : List Nat) (hx : x ∈ chunks) :
    x.length ≤ chunks.flatten.length := by
  induction chunks with
  | nil => cases hx
  | cons y ys ih =>
    rw [List.flatten_cons, List.length_append]
    rcases List.mem_cons.mp hx with h | h
    · subst h
      omega
    · have := ih h
      omega

theorem counter_split (c : md5_t) (n : Nat) (h0 : c.total0 < 2 ^ 32) (hn : n < 2 ^ 32)
    (h : counter c = n) : c.total0 = n ∧ c.total1 = 0 := by
  unfold counter at h
  norm_num at h0 hn h
  omega

/-- Chunked feeding of a message shorter than `2^32` bytes leaves a context
that agrees with the one left by a single call on the whole message. -/
theorem feed_same_view (c : md5_t) (chunks : List (List Nat)) (hb : c.buffer.length = 64)
    (hlen : chunks.flatten.length < 2 ^ 32) :
    same_view (feed (md5_pre c) chunks) (md5_update (md5_pre c) chunks.flatten) := by
  have hb0 : (md5_pre c).buffer.length = 64 := hb
  have z0 : (md5_pre c).total0 < 2 ^ 32 := by show 0 < 2 ^ 32; norm_num
  have z1 : (md5_pre c).total1 < 2 ^ 32 := by show 0 < 2 ^ 32; norm_num
  have hcz : counter (md5_pre c) = 0 := rfl
  obtain ⟨hl, hw, hp⟩ := feed_view (md5_pre c) chunks hb0
  obtain ⟨hl', hw', hp'⟩ := md5_update_view (md5_pre c) chunks.flatten hb0
  obtain ⟨hc, hc0, _⟩ := feed_counter (md5_pre c) chunks z0 z1
    (fun x hx => Nat.lt_of_le_of_lt (length_le_flatten chunks x hx) hlen)
  obtain ⟨hc', hc0', _⟩ := md5_update_counter (md5_pre c) chunks.flatten z0 z1 hlen
  have hmod : (counter (md5_pre c) + chunks.flatten.length) % 2 ^ 64 = chunks.flatten.length := by
    rw [hcz, Nat.zero_add]
    apply Nat.mod_eq_of_lt
    norm_num at hlen ⊢
    omega
  rw [hmod] at hc hc'
  obtain ⟨a0, a1⟩ := counter_split _ _ hc0 hlen hc
  obtain ⟨b0, b1⟩ := counter_split _ _ hc0' hlen hc'
  exact ⟨hl, hl', by rw [hw, hw'], by rw [a0, b0], by rw [a1, b1], by rw [hp, hp']⟩

/-- Chunking invariance for messages shorter than `2^32` bytes. -/
theorem md5_chunked_of_lt (c : md5_t) (chunks : List (List Nat)) (hb : c.buffer.length = 64)
    (hlen : chunks.flatten.length < 2 ^ 32) :
    (md5_finish (feed (md5_pre c) chunks)).2 = md5 c chunks.flatten :=
  same_view_finish _ _ (feed_same_view c chunks hb hlen)

/-! ### The RFC 1321 reference digest -/

theorem PUT_UINT32_LE_eq (n : Nat) : PUT_UINT32_LE n = le_bytes 4 n := by
  simp only [PUT_UINT32_LE, le_bytes, Nat.shiftRight_eq_div_pow, List.cons.injEq, and_true,
    true_and]
  omega

theorem digest_of_eq (c : md5_t) :
    digest_of (words c) =
      le_bytes 4 c.state0 ++ le_bytes 4 c.state1 ++ le_bytes 4 c.state2 ++ le_bytes 4 c.state3 := by
  simp only [digest_of, words, PUT_UINT32_LE_eq]

theorem msglen_of_short (c : md5_t) (n : Nat) (hn : n < 2 ^ 32) (h0 : c.total0 = n)
    (h1 : c.total1 = 0) : msglen_of c = le_bytes 8 (8 * n) := by
  simp only [msglen_of, h0, h1, PUT_UINT32_LE, le_bytes, Nat.shiftRight_eq_div_pow,
    Nat.shiftLeft_eq, Nat.zero_mul, Nat.zero_mod, Nat.or_zero, List.cons_append,
    List.nil_append, List.cons.injEq, and_true]
  norm_num at hn ⊢
  omega

theorem take_md5_padding (k : Nat) (hk : k ≤ 63) :
    md5_padding.take (k + 1) = [0x80] ++ List.replicate k 0 := by
  simp only [md5_padding, List.take_succ_cons, List.take_replicate, Nat.min_eq_left hk,
    List.singleton_append]

theorem padn_of_eq (c : md5_t) (n k : Nat) (h0 : c.total0 = n)
    (hk : (n + 1 + k + 8) % 64 = 0) (hmin : ∀ j < k, (n + 1 + j + 8) % 64 ≠ 0) :
    padn_of c = k + 1 ∧ k ≤ 63 := by
  have hle : k ≤ 63 := by
    by_contra hgt
    exact hmin (k - 64) (by omega) (by omega)
  refine ⟨?_, hle⟩
  simp only [padn_of, and_3F, h0]
  split_ifs <;> omega

theorem md5_pre_total0_lt (c : md5_t) : (md5_pre c).total0 < 2 ^ 32 := by
  show 0 < 2 ^ 32
  norm_num

theorem md5_pre_total1_lt (c : md5_t) : (md5_pre c).total1 < 2 ^ 32 := by
  show 0 < 2 ^ 32
  norm_num

theorem md5_update_pre_totals (c : md5_t) (b : List Nat) (hlen : b.length < 2 ^ 32) :
    (md5_update (md5_pre c) b).total0 = b.length ∧ (md5_update (md5_pre c) b).total1 = 0 := by
  obtain ⟨hc, hc0, _⟩ := md5_update_counter (md5_pre c) b (md5_pre_total0_lt c)
    (md5_pre_total1_lt c) hlen
  have hcz : counter (md5_pre c) = 0 := rfl
  have hmod : (counter (md5_pre c) + b.length) % 2 ^ 64 = b.length := by
    rw [hcz, Nat.zero_add]
    apply Nat.mod_eq_of_lt
    norm_num at hlen ⊢
    omega
  rw [hmod] at hc
  exact counter_split _ _ hc0 hlen hc

/-- C1. For every byte sequence `b` shorter than `2^32` bytes, `md5` returns
the RFC 1321 reference digest of `b`: the little-endian serialisation of the
state words obtained by folding the compression step from the initial
constants over the 64-byte blocks of `b`, `0x80`, `k` zero bytes and the
8-byte little-endian bit length, `k` being the least number that makes the
total length a multiple of 64. -/
theorem md5_eq_rfc1321_digest (c : md5_t) (b : List Nat) (k : Nat)
    (hb : c.buffer.length = 64) (hlen : b.length < 2 ^ 32)
    (hk : (b.length + 1 + k + 8) % 64 = 0)
    (hmin : ∀ j < k, (b.length + 1 + j + 8) % 64 ≠ 0) :
    md5 c b = rfc1321_digest b k := by
  have hb0 : (md5_pre c).buffer.length = 64 := hb
  obtain ⟨hl, hw, hp⟩ := md5_update_view (md5_pre c) b hb0
  have hpn : pending (md5_pre c) = [] := rfl
  rw [hpn, List.nil_append] at hw hp
  obtain ⟨t0, t1⟩ := md5_update_pre_totals c b hlen
  obtain ⟨hpad, hk63⟩ := padn_of_eq (md5_update (md5_pre c) b) b.length k t0 hk hmin
  have hfb : finish_bytes (md5_update (md5_pre c) b) =
      [0x80] ++ List.replicate k 0 ++ le_bytes 8 (8 * b.length) := by
    rw [finish_bytes, hpad, take_md5_padding k hk63, msglen_of_short _ _ hlen t0 t1]
  have hfold : words (absorb (md5_update (md5_pre c) b)
      (rest64 b ++ ([0x80] ++ List.replicate k 0 ++ le_bytes 8 (8 * b.length)))) =
      words (absorb md5_iv (rfc1321_padded b k)) := by
    have hsplit : rfc1321_padded b k =
        b ++ ([0x80] ++ List.replicate k 0 ++ le_bytes 8 (8 * b.length)) := by
      simp only [rfc1321_padded, List.append_assoc]
    rw [hsplit, absorb_append md5_iv b]
    exact absorb_words _ _ _ (hw.trans (absorb_words _ _ _ rfl))
  show (md5_finish (md5_update (md5_pre c) b)).2 = _
  rw [md5_finish_digest _ hl, hp, hfb, hfold, digest_of_eq]
  rfl

/-- Witness of C1 on the message "abc", for which `k = 52`. -/
theorem md5_eq_rfc1321_digest_witness :
    ctx_zero.buffer.length = 64 ∧ [0x61, 0x62, 0x63].length < 2 ^ 32 ∧
      ([0x61, 0x62, 0x63].length + 1 + 52 + 8) % 64 = 0 ∧
      (∀ j < 52, ([0x61, 0x62, 0x63].length + 1 + j + 8) % 64 ≠ 0) ∧
      md5 ctx_zero [0x61, 0x62, 0x63] = rfc1321_digest [0x61, 0x62, 0x63] 52 :=
  ⟨by decide, by decide, by decide, by decide,
    md5_eq_rfc1321_digest ctx_zero [0x61, 0x62, 0x63] 52 (by decide) (by decide) (by decide)
      (by decide)⟩

/-! ### Known digests -/

theorem length_buffer_ctx_zero : ctx_zero.buffer.length = 64 := by decide

/-- C3. The digest of the empty byte sequence is
`d41d8cd98f00b204e9800998ecf8427e`: `md5_update` returns the context of
`md5_pre` unchanged and finalisation compresses the single padding block. -/
theorem md5_empty (c : md5_t) (hb : c.buffer.length = 64) :
    md5_update (md5_pre c) [] = md5_pre c ∧
      md5 c [] = digest_of (words (md5_process (md5_pre c) (0x80 :: List.replicate 63 0))) ∧
      md5 c [] = [0xd4, 0x1d, 0x8c, 0xd9, 0x8f, 0x00, 0xb2, 0x04,
        0xe9, 0x80, 0x09, 0x98, 0xec, 0xf8, 0x42, 0x7e] := by
  refine ⟨md5_update_nil _, ?_, ?_⟩
  · have hb0 : (md5_pre c).buffer.length = 64 := hb
    have hpn : pending (md5_pre c) = [] := rfl
    have hfz : finish_bytes (md5_pre ctx_zero) = 0x80 :: List.replicate 63 0 := by decide
    have hfb : pending (md5_pre c) ++ finish_bytes (md5_pre c) = 0x80 :: List.replicate 63 0 := by
      rw [hpn, List.nil_append, finish_bytes_congr (md5_pre c) (md5_pre ctx_zero) rfl rfl, hfz]
    have hlen : (0x80 :: List.replicate 63 0).length = 64 := by decide
    show (md5_finish (md5_update (md5_pre c) [])).2 = _
    rw [md5_update_nil, md5_finish_digest _ hb0, hfb, absorb_of_le _ _ (by rw [hlen]),
      absorb_of_lt _ _ (by rw [List.length_drop, hlen]; norm_num),
      List.take_of_length_le (by rw [hlen])]
  · rw [md5_entry_irrelevant c ctx_zero [] hb length_buffer_ctx_zero]
    decide

/-- Witness of C3 on a context with a zeroed buffer. -/
theorem md5_empty_witness :
    ctx_zero.buffer.length = 64 ∧
      md5 ctx_zero [] = [0xd4, 0x1d, 0x8c, 0xd9, 0x8f, 0x00, 0xb2, 0x04,
        0xe9, 0x80, 0x09, 0x98, 0xec, 0xf8, 0x42, 0x7e] :=
  ⟨by decide, (md5_empty ctx_zero (by decide)).2.2⟩

/-- C4. The digest of the three bytes "abc" is
`900150983cd24fb0d6963f7d28e17f72`. -/
theorem md5_abc (c : md5_t) (hb : c.buffer.length = 64) :
    md5 c [0x61, 0x62, 0x63] = [0x90, 0x01, 0x50, 0x98, 0x3c, 0xd2, 0x4f, 0xb0,
      0xd6, 0x96, 0x3f, 0x7d, 0x28, 0xe1, 0x7f, 0x72] := by
  rw [md5_entry_irrelevant c ctx_zero _ hb length_buffer_ctx_zero]
  decide

/-- Witness of C4 on a context whose buffer holds 64 bytes `0xFF`. -/
theorem md5_abc_witness :
    (List.replicate 64 0xFF).length = 64 ∧
      md5 ⟨7, 7, 7, 7, 7, 7, List.replicate 64 0xFF⟩ msg_abc =
        [0x90, 0x01, 0x50, 0x98, 0x3c, 0xd2, 0x4f, 0xb0,
          0xd6, 0x96, 0x3f, 0x7d, 0x28, 0xe1, 0x7f, 0x72] :=
  ⟨by decide, md5_abc ⟨7, 7, 7, 7, 7, 7, List.replicate 64 0xFF⟩ (by decide)⟩

/-- C5. The digest of the 26 bytes "abcdefghijklmnopqrstuvwxyz" is
`c3fcd3d76192e4007dfb496cca67e13b`. -/
theorem md5_alphabet (c : md5_t) (hb : c.buffer.length = 64) :
    md5 c [0x61, 0x62, 0x63, 0x64, 0x65, 0x66, 0x67, 0x68, 0x69, 0x6a, 0x6b, 0x6c, 0x6d,
        0x6e, 0x6f, 0x70, 0x71, 0x72, 0x73, 0x74, 0x75, 0x76, 0x77, 0x78, 0x79, 0x7a] =
      [0xc3, 0xfc, 0xd3, 0xd7, 0x61, 0x92, 0xe4, 0x00,
        0x7d, 0xfb, 0x49, 0x6c, 0xca, 0x67, 0xe1, 0x3b] := by
  rw [md5_entry_irrelevant c ctx_zero _ hb length_buffer_ctx_zero]
  decide

/-- Witness of C5 on a context with a zeroed buffer. -/
theorem md5_alphabet_witness :
    ctx_zero.buffer.length = 64 ∧ msg_alphabet.length = 26 ∧
      md5 ctx_zero msg_alphabet = [0xc3, 0xfc, 0xd3, 0xd7, 0x61, 0x92, 0xe4, 0x00,
        0x7d, 0xfb, 0x49, 0x6c, 0xca, 0x67, 0xe1, 0x3b] :=
  ⟨by decide, by decide, md5_alphabet ctx_zero (by decide)⟩

/-- C8. `md5_update` with a span of length 0 is a no-op: the context, that
is the state words, both counter words and the whole buffer, is returned
unchanged. -/
theorem md5_update_empty_noop (c : md5_t) :
    md5_update c [] = c ∧ words (md5_update c []) = words c ∧
      (md5_update c []).total0 = c.total0 ∧ (md5_update c []).total1 = c.total1 ∧
      (md5_update c []).buffer = c.buffer := by
  rw [md5_update_nil]
  exact ⟨rfl, rfl, rfl, rfl, rfl⟩

/-- C10. The digest depends only on the input bytes: whatever the local
context of `md5` held on entry, in particular the 64 buffer bytes, which
`md5_pre` leaves as they are, the same 16 bytes are returned. -/
theorem md5_deterministic (c c' : md5_t) (b : List Nat) (hb : c.buffer.length = 64)
    (hb' : c'.buffer.length = 64) :
    (md5_pre c).buffer = c.buffer ∧ md5 c b = md5 c' b ∧ (md5 c b).length = 16 :=
  ⟨rfl, md5_entry_irrelevant c c' b hb hb', rfl⟩

/-- Witness of C10 on "abc" with a zeroed buffer and a buffer of bytes `0xFF`. -/
theorem md5_deterministic_witness :
    ctx_zero.buffer.length = 64 ∧ (List.replicate 64 0xFF).length = 64 ∧
      md5 ctx_zero msg_abc = md5 ⟨1, 2, 3, 4, 5, 6, List.replicate 64 0xFF⟩ msg_abc :=
  ⟨by decide, by decide,
    (md5_deterministic ctx_zero ⟨1, 2, 3, 4, 5, 6, List.replicate 64 0xFF⟩ msg_abc (by decide)
      (by decide)).2.1⟩

/-! ### Partial blocks -/

theorem md5_update_short (c : md5_t) (inp : List Nat) (hpos : 0 < inp.length)
    (h : c.total0 % 64 + inp.length < 64) :
    md5_update c inp =
      { counted c inp.length with buffer := memcpy c.buffer (c.total0 % 64) inp } := by
  have hnf : ¬ (c.total0 % 64 ≠ 0 ∧ 64 - c.total0 % 64 ≤ inp.length) := by omega
  have hi : inp.length < 64 := by omega
  rw [md5_update_of_not_fill c inp hpos hnf, absorb_of_lt _ _ hi, rest64_of_lt _ hi]
  unfold store_tail
  rw [if_pos hpos]
  rfl

theorem memcpy_getElem_lt (dst src : List Nat) (off i : Nat) (h : off ≤ dst.length)
    (hi : i < off) : (memcpy dst off src)[i]? = dst[i]? := by
  have hl : (dst.take off).length = off := by
    rw [List.length_take]
    omega
  unfold memcpy
  rw [List.append_assoc, List.getElem?_append_left (by rw [hl]; exact hi), List.getElem?_take,
    if_pos hi]

theorem memcpy_getElem_src (dst src : List Nat) (off j : Nat) (h : off ≤ dst.length)
    (hj : j < src.length) : (memcpy dst off src)[off + j]? = src[j]? := by
  have hl : (dst.take off).length = off := by
    rw [List.length_take]
    omega
  unfold memcpy
  rw [List.append_assoc, List.getElem?_append_right (by rw [hl]; omega), hl,
    List.getElem?_append_left (by omega), Nat.add_sub_cancel_left]

/-- C9. Partial blocks are never compressed: when the occupancy
`left = total[0] mod 64` (the value of `total[0] & 0x3F`) and the input length
`n` satisfy `left + n < 64`, `md5_update` leaves the four state words
unchanged, leaves the buffer bytes `0..left-1` unchanged and writes the `n`
input bytes at the buffer offsets `left..left+n-1`. -/
theorem md5_update_partial_block (c : md5_t) (inp : List Nat) (hb : c.buffer.length = 64)
    (h : c.total0 % 64 + inp.length < 64) :
    (c.total0 &&& 0x3F) = c.total0 % 64 ∧
      words (md5_update c inp) = words c ∧
      (∀ i, i < c.total0 % 64 → (md5_update c inp).buffer[i]? = c.buffer[i]?) ∧
      (∀ j, j < inp.length → (md5_update c inp).buffer[c.total0 % 64 + j]? = inp[j]?) := by
  refine ⟨and_3F _, ?_⟩
  by_cases hpos : 0 < inp.length
  · rw [md5_update_short c inp hpos h]
    refine ⟨rfl, ?_, ?_⟩
    · intro i hi
      exact memcpy_getElem_lt _ _ _ _ (by omega) hi
    · intro j hj
      exact memcpy_getElem_src _ _ _ _ (by omega) hj
  · have hnil : inp = [] := List.length_eq_zero.mp (by omega)
    subst hnil
    rw [md5_update_nil]
    refine ⟨rfl, fun _ _ => rfl, ?_⟩
    intro j hj
    exact absurd hj (by simp)

/-- Witness of C9: three bytes fed to a context holding five pending bytes. -/
theorem md5_update_partial_block_witness :
    (List.replicate 64 9).length = 64 ∧ 5 % 64 + [1, 2, 3].length < 64 ∧
      words (md5_update ⟨5, 0, 10, 11, 12, 13, List.replicate 64 9⟩ [1, 2, 3]) =
        words ⟨5, 0, 10, 11, 12, 13, List.replicate 64 9⟩ ∧
      (md5_update ⟨5, 0, 10, 11, 12, 13, List.replicate 64 9⟩ [1, 2, 3]).buffer.take 9 =
        [9, 9, 9, 9, 9, 1, 2, 3, 9] :=
  ⟨by decide, by decide,
    (md5_update_partial_block ⟨5, 0, 10, 11, 12, 13, List.replicate 64 9⟩ [1, 2, 3] (by decide)
      (by decide)).2.1,
    by decide⟩

/-! ### Using a context after finalisation -/

theorem length_msglen_of (c : md5_t) : (msglen_of c).length = 8 := rfl

theorem length_take_md5_padding (c : md5_t) :
    (md5_padding.take (padn_of c)).length = padn_of c ∧
      (c.total0 % 64 + padn_of c) % 64 = 56 := by
  have hl : md5_padding.length = 64 := by decide
  rw [List.length_take, hl]
  simp only [padn_of, and_3F]
  split_ifs <;> omega

theorem md5_finish_length (c : md5_t) (hb : c.buffer.length = 64) :
    (md5_finish c).1.buffer.length = 64 := by
  rw [md5_finish_fst]
  exact (md5_update_view _ _ (md5_update_view c _ hb).1).1

theorem md5_finish_occupancy (c : md5_t) : (md5_finish c).1.total0 % 64 = 0 := by
  obtain ⟨hl, hm⟩ := length_take_md5_padding c
  rw [md5_finish_fst, md5_update_occupancy, md5_update_occupancy, hl, length_msglen_of, hm]

/-- C6, counterexample. On the context of the empty message a second
`md5_finish`, and also `md5_update` followed by `md5_finish`, returns a digest
that differs from the first one; the result carries no error. -/
theorem md5_finish_twice_differs :
    (md5_finish (md5_finish (md5_pre ctx_zero)).1).2 ≠ (md5_finish (md5_pre ctx_zero)).2 ∧
      (md5_finish (md5_update (md5_finish (md5_pre ctx_zero)).1 [0x61])).2 ≠
        (md5_finish (md5_pre ctx_zero)).2 := by
  decide

/-- C6, amended. A finalised context is not rejected: `md5_update` and
`md5_finish` are total and treat it as an absorbing context with an empty
buffer whose state words are those of the first digest.  Feeding `x`
(possibly empty) and finalising again returns the serialised state reached by
compressing, from that state, the blocks of `x` followed by the padding and
the length field of the counter at that point. -/
theorem md5_finish_on_finalized (c : md5_t) (x : List Nat) (hb : c.buffer.length = 64) :
    (md5_finish c).2 = digest_of (words (md5_finish c).1) ∧
      (md5_finish c).1.total0 % 64 = 0 ∧
      pending (md5_finish c).1 = [] ∧
      (md5_finish (md5_update (md5_finish c).1 x)).2 =
        digest_of (words (absorb (md5_finish c).1
          (x ++ finish_bytes (md5_update (md5_finish c).1 x)))) := by
  have hb1 := md5_finish_length c hb
  have hocc := md5_finish_occupancy c
  have hpn : pending (md5_finish c).1 = [] := by
    unfold pending
    rw [hocc, List.take_zero]
  obtain ⟨hbu, hwu, hpu⟩ := md5_update_view (md5_finish c).1 x hb1
  rw [hpn, List.nil_append] at hwu hpu
  refine ⟨rfl, hocc, hpn, ?_⟩
  rw [md5_finish_digest _ hbu, hpu, absorb_append (md5_finish c).1 x]
  exact congrArg digest_of (absorb_words _ _ _ hwu)

/-- Witness of C6, amended, on the context of the empty message: a second
finalisation returns the digest of one more padding block. -/
theorem md5_finish_on_finalized_witness :
    ctx_zero.buffer.length = 64 ∧
      (md5_finish (md5_update (md5_finish (md5_pre ctx_zero)).1 [])).2 =
        digest_of (words (absorb (md5_finish (md5_pre ctx_zero)).1
          ([] ++ finish_bytes (md5_update (md5_finish (md5_pre ctx_zero)).1 [])))) :=
  ⟨by decide, (md5_finish_on_finalized (md5_pre ctx_zero) [] (by decide)).2.2.2⟩

/-! ### Spans of `2^32` bytes and more -/

theorem length_span_2GiB : span_2GiB.length = 2 ^ 31 := List.length_replicate _ _

theorem length_span_4GiB : (span_2GiB ++ span_2GiB).length = 2 ^ 32 := by
  rw [List.length_append, length_span_2GiB]
  norm_num

theorem md5_update_4GiB_totals :
    (md5_update (md5_pre ctx_zero) (span_2GiB ++ span_2GiB)).total0 = 0 ∧
      (md5_update (md5_pre ctx_zero) (span_2GiB ++ span_2GiB)).total1 = 0 := by
  have hpos : 0 < (span_2GiB ++ span_2GiB).length := by
    rw [length_span_4GiB]
    norm_num
  rw [md5_update_total0 _ _ hpos, md5_update_total1 _ _ hpos, length_span_4GiB]
  have z0 : (md5_pre ctx_zero).total0 = 0 := rfl
  have z1 : (md5_pre ctx_zero).total1 = 0 := rfl
  rw [z0, z1]
  norm_num

theorem counter_split_carry (c : md5_t) (h0 : c.total0 < 2 ^ 32)
    (h : counter c = (0 + 2 ^ 32) % 2 ^ 64) : c.total0 = 0 ∧ c.total1 = 1 := by
  unfold counter at h
  norm_num at h0 h
  omega

theorem span_2GiB_chunks : ∀ x ∈ [span_2GiB, span_2GiB], x.length < 2 ^ 32 := by
  have hlt : span_2GiB.length < 2 ^ 32 := by
    rw [length_span_2GiB]
    norm_num
  intro x hx
  simp only [List.mem_cons, List.mem_singleton, List.not_mem_nil, or_false, or_self] at hx
  rw [hx]
  exact hlt

theorem flatten_span_2GiB : [span_2GiB, span_2GiB].flatten = span_2GiB ++ span_2GiB := by
  simp only [List.flatten_cons, List.flatten_nil, List.append_nil]

theorem feed_4GiB_totals :
    (feed (md5_pre ctx_zero) [span_2GiB, span_2GiB]).total0 = 0 ∧
      (feed (md5_pre ctx_zero) [span_2GiB, span_2GiB]).total1 = 1 := by
  obtain ⟨hc, h0, _⟩ := feed_counter (md5_pre ctx_zero) [span_2GiB, span_2GiB]
    (md5_pre_total0_lt _) (md5_pre_total1_lt _) span_2GiB_chunks
  have hcz : counter (md5_pre ctx_zero) = 0 := rfl
  rw [flatten_span_2GiB, length_span_4GiB, hcz] at hc
  exact counter_split_carry _ h0 hc

theorem counter_eq (c : md5_t) (a b : Nat) (h0 : c.total0 = a) (h1 : c.total1 = b) :
    counter c = a + 2 ^ 32 * b := by
  unfold counter
  rw [h0, h1]

/-- C7, the code at the failing input. One call of `md5_update` on a span of
`2^32` bytes, made right after `md5_pre`, leaves the byte counter at 0 and not
at `2^32`; the same bytes passed in two calls of `2^31` bytes are counted
exactly. -/
theorem md5_update_4GiB_counter :
    (span_2GiB ++ span_2GiB).length = 2 ^ 32 ∧
      counter (md5_update (md5_pre ctx_zero) (span_2GiB ++ span_2GiB)) = 0 ∧
      counter (feed (md5_pre ctx_zero) [span_2GiB, span_2GiB]) = 2 ^ 32 :=
  ⟨length_span_4GiB,
    (counter_eq _ 0 0 md5_update_4GiB_totals.1 md5_update_4GiB_totals.2).trans (by norm_num),
    (counter_eq _ 0 1 feed_4GiB_totals.1 feed_4GiB_totals.2).trans (by norm_num)⟩

theorem md5_unfold (c : md5_t) (b : List Nat) :
    md5 c b = (md5_finish (md5_update (md5_pre c) b)).2 := rfl

theorem rest64_eq_nil (l : List Nat) (h : l.length % 64 = 0) : rest64 l = [] :=
  List.length_eq_zero.mp (by rw [length_rest64, h])

theorem md5_update_pre_view (c : md5_t) (b : List Nat) (hb : c.buffer.length = 64)
    (hmod : b.length % 64 = 0) :
    (md5_update (md5_pre c) b).buffer.length = 64 ∧
      words (md5_update (md5_pre c) b) = words (absorb (md5_pre c) b) ∧
      pending (md5_update (md5_pre c) b) = [] := by
  have hb0 : (md5_pre c).buffer.length = 64 := hb
  obtain ⟨hl, hw, hp⟩ := md5_update_view (md5_pre c) b hb0
  have hpn : pending (md5_pre c) = [] := rfl
  rw [hpn, List.nil_append] at hw hp
  exact ⟨hl, hw, hp.trans (rest64_eq_nil b hmod)⟩

theorem feed_pre_view (c : md5_t) (chunks : List (List Nat)) (b : List Nat)
    (hb : c.buffer.length = 64) (hfl : chunks.flatten = b) (hmod : b.length % 64 = 0) :
    (feed (md5_pre c) chunks).buffer.length = 64 ∧
      words (feed (md5_pre c) chunks) = words (absorb (md5_pre c) b) ∧
      pending (feed (md5_pre c) chunks) = [] := by
  have hb0 : (md5_pre c).buffer.length = 64 := hb
  obtain ⟨hl, hw, hp⟩ := feed_view (md5_pre c) chunks hb0
  have hpn : pending (md5_pre c) = [] := rfl
  rw [hpn, List.nil_append, hfl] at hw hp
  exact ⟨hl, hw, hp.trans (rest64_eq_nil b hmod)⟩

theorem md5_finish_one_block (c S : md5_t) (fb : List Nat) (hb : c.buffer.length = 64)
    (hp : pending c = []) (hw : words c = words S) (hfb : finish_bytes c = fb)
    (hlen : fb.length = 64) :
    (md5_finish c).2 = digest_of (words (md5_process S fb)) := by
  rw [md5_finish_digest c hb, hp, List.nil_append, hfb, absorb_of_le _ _ (by omega),
    absorb_of_lt _ _ (by rw [List.length_drop]; omega), List.take_of_length_le (by omega)]
  exact congrArg digest_of (md5_process_words _ _ _ hw)

theorem finish_bytes_of_totals (c : md5_t) (a b : Nat) (fb : List Nat) (h0 : c.total0 = a)
    (h1 : c.total1 = b) (h : finish_bytes ⟨a, b, 0, 0, 0, 0, []⟩ = fb) : finish_bytes c = fb :=
  (finish_bytes_congr c ⟨a, b, 0, 0, 0, 0, []⟩ h0 h1).trans h

theorem mod_64_span_4GiB : (span_2GiB ++ span_2GiB).length % 64 = 0 := by
  rw [length_span_4GiB]
  norm_num

/-- C2, the code at the failing input. For the message of `2^32` zero bytes,
the one-shot `md5` and the run that feeds it as two chunks of `2^31` bytes
reach the same state `S` before the final block, and then compress two
different final blocks: the one-shot run appends the bit length 0, the chunked
run the bit length `2^35`. -/
theorem md5_4GiB_final_blocks :
    [span_2GiB, span_2GiB].flatten = span_2GiB ++ span_2GiB ∧
      md5 ctx_zero (span_2GiB ++ span_2GiB) =
        digest_of (words (md5_process (absorb (md5_pre ctx_zero) (span_2GiB ++ span_2GiB))
          block_len_0)) ∧
      (md5_finish (feed (md5_pre ctx_zero) [span_2GiB, span_2GiB])).2 =
        digest_of (words (md5_process (absorb (md5_pre ctx_zero) (span_2GiB ++ span_2GiB))
          block_len_2p35)) ∧
      block_len_0 ≠ block_len_2p35 ∧ le_bytes 8 (8 * 2 ^ 32) = [0, 0, 0, 0, 8, 0, 0, 0] :=
  ⟨flatten_span_2GiB,
    (md5_unfold ctx_zero (span_2GiB ++ span_2GiB)).trans
      (md5_finish_one_block _ _ block_len_0
        (md5_update_pre_view ctx_zero _ length_buffer_ctx_zero mod_64_span_4GiB).1
        (md5_update_pre_view ctx_zero _ length_buffer_ctx_zero mod_64_span_4GiB).2.2
        (md5_update_pre_view ctx_zero _ length_buffer_ctx_zero mod_64_span_4GiB).2.1
        (finish_bytes_of_totals _ 0 0 block_len_0 md5_update_4GiB_totals.1
          md5_update_4GiB_totals.2 (by decide))
        (by decide)),
    md5_finish_one_block _ _ block_len_2p35
      (feed_pre_view ctx_zero _ _ length_buffer_ctx_zero flatten_span_2GiB mod_64_span_4GiB).1
      (feed_pre_view ctx_zero _ _ length_buffer_ctx_zero flatten_span_2GiB mod_64_span_4GiB).2.2
      (feed_pre_view ctx_zero _ _ length_buffer_ctx_zero flatten_span_2GiB mod_64_span_4GiB).2.1
      (finish_bytes_of_totals _ 0 1 block_len_2p35 feed_4GiB_totals.1 feed_4GiB_totals.2
        (by decide))
      (by decide),
    by decide, by decide⟩

/-! ### Padding length and length field -/

theorem or_shiftLeft_of_lt (a b n : Nat) (h : b < 2 ^ n) : b ||| (a <<< n) = b + a * 2 ^ n := by
  rw [Nat.or_comm, Nat.shiftLeft_eq, Nat.mul_comm a, ← Nat.mul_add_lt_is_or h, Nat.add_comm]

theorem padn_of_bounds (c : md5_t) : 1 ≤ padn_of c ∧ padn_of c ≤ 64 := by
  simp only [padn_of, and_3F]
  split_ifs <;> omega

theorem take_md5_padding_padn (c : md5_t) :
    md5_padding.take (padn_of c) = 0x80 :: List.replicate (padn_of c - 1) 0 := by
  obtain ⟨h1, h64⟩ := padn_of_bounds c
  have h := take_md5_padding (padn_of c - 1) (by omega)
  rw [Nat.sub_add_cancel h1] at h
  rw [h, List.singleton_append]

/-- C19. For every context, with `last = total[0] & 0x3F = total[0] mod 64`,
the padding length `padn` of `md5_finish` satisfies `1 <= padn <= 64` and
`(last + padn) mod 64 = 56`; the `padn` bytes read from `md5_padding` are one
byte `0x80` followed by zeros; and after the 8-byte length field has been fed
the occupancy `total[0] mod 64` is 0. -/
theorem md5_finish_padn (c : md5_t) :
    (md5_finish c).1 =
        md5_update (md5_update c (md5_padding.take (padn_of c))) (msglen_of c) ∧
      (c.total0 &&& 0x3F) = c.total0 % 64 ∧
      1 ≤ padn_of c ∧ padn_of c ≤ 64 ∧ padn_of c ≤ md5_padding.length ∧
      (c.total0 % 64 + padn_of c) % 64 = 56 ∧
      md5_padding.take (padn_of c) = 0x80 :: List.replicate (padn_of c - 1) 0 ∧
      (md5_update c (md5_padding.take (padn_of c))).total0 % 64 = 56 ∧
      (md5_finish c).1.total0 % 64 = 0 := by
  obtain ⟨h1, h64⟩ := padn_of_bounds c
  obtain ⟨hl, hm⟩ := length_take_md5_padding c
  refine ⟨rfl, and_3F _, h1, h64, ?_, hm, take_md5_padding_padn c, ?_, md5_finish_occupancy c⟩
  · have : md5_padding.length = 64 := by decide
    omega
  · rw [md5_update_occupancy, hl, hm]

theorem msglen_of_eq (c : md5_t) (h0 : c.total0 < 2 ^ 32) :
    msglen_of c = le_bytes 8 ((8 * (c.total0 + 2 ^ 32 * c.total1)) % 2 ^ 64) := by
  have hlt : c.total0 >>> 29 < 2 ^ 3 := by
    rw [Nat.shiftRight_eq_div_pow]
    norm_num at h0 ⊢
    omega
  have hhigh : (c.total0 >>> 29) ||| ((c.total1 <<< 3) % 2 ^ 32) =
      c.total0 / 2 ^ 29 + (c.total1 % 2 ^ 29) * 2 ^ 3 := by
    have e : (c.total1 <<< 3) % 2 ^ 32 = (c.total1 % 2 ^ 29) <<< 3 := by
      rw [Nat.shiftLeft_eq, Nat.shiftLeft_eq]
      norm_num
      omega
    rw [e, or_shiftLeft_of_lt _ _ 3 hlt, Nat.shiftRight_eq_div_pow]
  unfold msglen_of
  rw [hhigh]
  simp only [PUT_UINT32_LE, le_bytes, Nat.shiftRight_eq_div_pow,
    Nat.shiftLeft_eq, List.cons_append, List.nil_append, List.cons.injEq, and_true]
  norm_num at h0 ⊢
  omega

/-- C18. For every context (with `total[0]` a 32-bit word) the eight bytes
`msglen` that `md5_finish` builds from `low = total[0] << 3` and
`high = (total[0] >> 29) | (total[1] << 3)` are the little-endian encoding of
`(8 * (total[0] + 2^32 * total[1])) mod 2^64`. -/
theorem md5_finish_msglen (c : md5_t) (h0 : c.total0 < 2 ^ 32) :
    (md5_finish c).1 =
        md5_update (md5_update c (md5_padding.take (padn_of c))) (msglen_of c) ∧
      msglen_of c =
        PUT_UINT32_LE ((c.total0 <<< 3) % 2 ^ 32) ++
          PUT_UINT32_LE ((c.total0 >>> 29) ||| ((c.total1 <<< 3) % 2 ^ 32)) ∧
      msglen_of c = le_bytes 8 ((8 * (c.total0 + 2 ^ 32 * c.total1)) % 2 ^ 64) :=
  ⟨rfl, rfl, msglen_of_eq c h0⟩

/-- Witness of C18 on a counter whose both words are in use. -/
theorem md5_finish_msglen_witness :
    (0xE0000001 : Nat) < 2 ^ 32 ∧
      msglen_of ⟨0xE0000001, 0x20000003, 0, 0, 0, 0, []⟩ =
        le_bytes 8 ((8 * (0xE0000001 + 2 ^ 32 * 0x20000003)) % 2 ^ 64) ∧
      msglen_of ⟨0xE0000001, 0x20000003, 0, 0, 0, 0, []⟩ = [8, 0, 0, 0, 0x1f, 0, 0, 0] :=
  ⟨by decide, (md5_finish_msglen ⟨0xE0000001, 0x20000003, 0, 0, 0, 0, []⟩ (by decide)).2.2,
    by decide⟩

/-! ### The digest bytes -/

theorem words_lt_md5_process (c : md5_t) (d : List Nat) : words_lt (words (md5_process c d)) := by
  simp only [words_lt, words, md5_process]
  exact ⟨Nat.mod_lt _ (by norm_num), Nat.mod_lt _ (by norm_num), Nat.mod_lt _ (by norm_num),
    Nat.mod_lt _ (by norm_num)⟩

theorem words_lt_absorb (c : md5_t) (l : List Nat) (h : words_lt (words c)) :
    words_lt (words (absorb c l)) := by
  unfold absorb
  induction blocks64 l generalizing c with
  | nil => exact h
  | cons b bs ih =>
    rw [List.foldl_cons]
    exact ih _ (words_lt_md5_process c b)

theorem words_lt_absorb_of_le (c : md5_t) (l : List Nat) (h : 64 ≤ l.length) :
    words_lt (words (absorb c l)) := by
  rw [absorb_of_le c l h]
  exact words_lt_absorb _ _ (words_lt_md5_process _ _)

theorem length_finish_data (c : md5_t) (hb : c.buffer.length = 64) :
    (pending c ++ finish_bytes c).length = c.total0 % 64 + padn_of c + 8 := by
  obtain ⟨hl, _⟩ := length_take_md5_padding c
  rw [List.length_append, length_pending c hb, finish_bytes, List.length_append, hl,
    length_msglen_of, Nat.add_assoc]

theorem words_lt_md5_finish (c : md5_t) (hb : c.buffer.length = 64) :
    words_lt (words (md5_finish c).1) := by
  obtain ⟨_, hm⟩ := length_take_md5_padding c
  obtain ⟨h1, _⟩ := padn_of_bounds c
  rw [md5_finish_words c hb]
  apply words_lt_absorb_of_le
  rw [length_finish_data c hb]
  omega

theorem getD_digest_of (c : md5_t) (i j : Nat) (hi : i < 4) (hj : j < 4) :
    (digest_of (words c)).getD (4 * i + j) 0 = (state_word c i >>> (8 * j)) % 256 := by
  interval_cases i <;> interval_cases j <;> rfl

theorem le_word_readback (n : Nat) (h : n < 2 ^ 32) :
    ((n % 256 % 256) ||| (((n >>> 8) % 256 % 256) <<< 8) ||| (((n >>> 16) % 256 % 256) <<< 16)
      ||| (((n >>> 24) % 256 % 256) <<< 24)) % 2 ^ 32 = n := by
  have h1 : n % 256 % 256 < 2 ^ 8 := by omega
  rw [or_shiftLeft_of_lt _ _ 8 h1]
  have h2 : n % 256 % 256 + (n >>> 8) % 256 % 256 * 2 ^ 8 < 2 ^ 16 := by omega
  rw [or_shiftLeft_of_lt _ _ 16 h2]
  have h3 : n % 256 % 256 + (n >>> 8) % 256 % 256 * 2 ^ 8 + (n >>> 16) % 256 % 256 * 2 ^ 16
      < 2 ^ 24 := by omega
  rw [or_shiftLeft_of_lt _ _ 24 h3]
  simp only [Nat.shiftRight_eq_div_pow]
  norm_num at h ⊢
  omega

theorem readback_digest_of (c : md5_t) (h : words_lt (words c)) (i : Nat) (hi : i < 4) :
    GET_UINT32_LE (digest_of (words c)) (4 * i) = state_word c i := by
  obtain ⟨h0, h1, h2, h3⟩ := h
  interval_cases i
  · exact le_word_readback c.state0 h0
  · exact le_word_readback c.state1 h1
  · exact le_word_readback c.state2 h2
  · exact le_word_readback c.state3 h3

/-- C11. The digest written by `md5_finish` has exactly 16 bytes and is the
little-endian serialisation of the four final state words: for `i` and `j` in
`0..3`, `output[4*i + j] = (state[i] >> (8*j)) mod 256`, and reading the
output back as four little-endian 32-bit words returns `state[0..3]`. -/
theorem md5_finish_output (c : md5_t) (hb : c.buffer.length = 64) :
    (md5_finish c).2.length = 16 ∧
      (∀ i j, i < 4 → j < 4 →
        (md5_finish c).2.getD (4 * i + j) 0 = (state_word (md5_finish c).1 i >>> (8 * j)) % 256) ∧
      (∀ i, i < 4 → state_word (md5_finish c).1 i < 2 ^ 32) ∧
      (∀ i, i < 4 → GET_UINT32_LE (md5_finish c).2 (4 * i) = state_word (md5_finish c).1 i) := by
  have hlt := words_lt_md5_finish c hb
  refine ⟨rfl, ?_, ?_, ?_⟩
  · intro i j hi hj
    rw [md5_finish_snd]
    exact getD_digest_of _ i j hi hj
  · intro i hi
    obtain ⟨h0, h1, h2, h3⟩ := hlt
    interval_cases i
    · exact h0
    · exact h1
    · exact h2
    · exact h3
  · intro i hi
    rw [md5_finish_snd]
    exact readback_digest_of _ hlt i hi

/-- Witness of C11 on the context of the empty message: the second output
word read back is the second state word. -/
theorem md5_finish_output_witness :
    (md5_pre ctx_zero).buffer.length = 64 ∧
      GET_UINT32_LE (md5_finish (md5_pre ctx_zero)).2 (4 * 1) =
        state_word (md5_finish (md5_pre ctx_zero)).1 1 ∧
      (md5_finish (md5_pre ctx_zero)).2.take 4 = [0xd4, 0x1d, 0x8c, 0xd9] ∧
      state_word (md5_finish (md5_pre ctx_zero)).1 0 = 0xd98c1dd4 :=
  ⟨by decide, (md5_finish_output (md5_pre ctx_zero) (by decide)).2.2.2 1 (by decide), by decide,
    by decide⟩

/-! ### One or two blocks at finalisation -/

theorem absorb_one_block (c : md5_t) (x : List Nat) (h : x.length = 64) :
    absorb c x = md5_process c x := by
  rw [absorb_of_le _ _ (by omega), absorb_of_lt _ _ (by rw [List.length_drop]; omega),
    List.take_of_length_le (by omega)]

theorem blocks64_one_block (x : List Nat) (h : x.length = 64) : blocks64 x = [x] := by
  rw [blocks64_of_le _ (by omega), blocks64_of_lt _ (by rw [List.length_drop]; omega),
    List.take_of_length_le (by omega)]

theorem absorb_two_blocks (c : md5_t) (x y : List Nat) (hx : x.length = 64)
    (hy : y.length = 64) : absorb c (x ++ y) = md5_process (md5_process c x) y := by
  rw [absorb_of_le _ _ (by rw [List.length_append]; omega), List.take_left' hx,
    List.drop_left' hx, absorb_one_block _ _ hy]

theorem blocks64_two_blocks (x y : List Nat) (hx : x.length = 64) (hy : y.length = 64) :
    blocks64 (x ++ y) = [x, y] := by
  rw [blocks64_of_le _ (by rw [List.length_append]; omega), List.take_left' hx,
    List.drop_left' hx, blocks64_one_block _ hy]

theorem finish_data_short (c : md5_t) (h : c.total0 % 64 < 56) :
    pending c ++ finish_bytes c =
      pending c ++ [0x80] ++ List.replicate (55 - c.total0 % 64) 0 ++ msglen_of c := by
  have hp : padn_of c - 1 = 55 - c.total0 % 64 := by
    simp only [padn_of, and_3F, if_pos h]
    omega
  rw [finish_bytes, take_md5_padding_padn, hp]
  simp only [List.append_assoc, List.singleton_append]

theorem finish_data_long (c : md5_t) (h : 56 ≤ c.total0 % 64) :
    pending c ++ finish_bytes c =
      (pending c ++ [0x80] ++ List.replicate (63 - c.total0 % 64) 0) ++
        (List.replicate 56 0 ++ msglen_of c) := by
  have hL : c.total0 % 64 < 64 := Nat.mod_lt _ (by norm_num)
  have hp : padn_of c - 1 = (63 - c.total0 % 64) + 56 := by
    simp only [padn_of, and_3F, if_neg (Nat.not_lt.mpr h)]
    omega
  rw [finish_bytes, take_md5_padding_padn, hp, List.replicate_add]
  simp only [List.append_assoc, List.singleton_append, List.cons_append, List.nil_append]

theorem length_blocks64 (l : List Nat) : (blocks64 l).length = l.length / 64 := by
  simp only [blocks64, List.length_map, List.length_range]

theorem md5_eq_absorb (c : md5_t) (b : List Nat) (hb : c.buffer.length = 64) :
    md5 c b = digest_of (words (absorb (md5_pre c)
      (b ++ finish_bytes (md5_update (md5_pre c) b)))) := by
  have hb0 : (md5_pre c).buffer.length = 64 := hb
  obtain ⟨hl, hw, hp⟩ := md5_update_view (md5_pre c) b hb0
  have hpn : pending (md5_pre c) = [] := rfl
  rw [hpn, List.nil_append] at hw hp
  show (md5_finish (md5_update (md5_pre c) b)).2 = _
  rw [md5_finish_digest _ hl, hp, absorb_append (md5_pre c) b]
  exact congrArg digest_of (absorb_words _ _ _ hw)

theorem md5_block_count (c : md5_t) (b : List Nat) (hlen : b.length < 2 ^ 32) :
    (blocks64 (b ++ finish_bytes (md5_update (md5_pre c) b))).length =
      b.length / 64 + (if b.length % 64 < 56 then 1 else 2) := by
  obtain ⟨t0, _⟩ := md5_update_pre_totals c b hlen
  obtain ⟨hl, _⟩ := length_take_md5_padding (md5_update (md5_pre c) b)
  rw [length_blocks64, List.length_append, finish_bytes, List.length_append, hl,
    length_msglen_of]
  simp only [padn_of, and_3F, t0]
  split_ifs <;> omega

/-- C13. Finalisation compresses one block or two, depending on the occupancy
`last = total[0] mod 64`. With `buf` the first `last` buffer bytes and `len8`
the length field: if `last < 56` the final state is the compression of
`buf ++ [0x80] ++ zeros(55 - last) ++ len8`; if `last >= 56` it is the
compression of `zeros(56) ++ len8` after that of
`buf ++ [0x80] ++ zeros(63 - last)`.  For a message `b` shorter than `2^32`
bytes the one-shot `md5` therefore compresses `|b| / 64 + 1` blocks when
`|b| mod 64 < 56` and `|b| / 64 + 2` blocks otherwise. -/
theorem md5_finish_one_or_two_blocks (c : md5_t) (hb : c.buffer.length = 64) :
    (c.total0 % 64 < 56 →
        words (md5_finish c).1 = words (md5_process c
          (pending c ++ [0x80] ++ List.replicate (55 - c.total0 % 64) 0 ++ msglen_of c)) ∧
        blocks64 (pending c ++ finish_bytes c) =
          [pending c ++ [0x80] ++ List.replicate (55 - c.total0 % 64) 0 ++ msglen_of c]) ∧
      (56 ≤ c.total0 % 64 →
        words (md5_finish c).1 = words (md5_process (md5_process c
          (pending c ++ [0x80] ++ List.replicate (63 - c.total0 % 64) 0))
          (List.replicate 56 0 ++ msglen_of c)) ∧
        blocks64 (pending c ++ finish_bytes c) =
          [pending c ++ [0x80] ++ List.replicate (63 - c.total0 % 64) 0,
            List.replicate 56 0 ++ msglen_of c]) ∧
      (md5_finish c).2 = digest_of (words (md5_finish c).1) ∧
      words (md5_finish c).1 = words ((blocks64 (pending c ++ finish_bytes c)).foldl
        md5_process c) ∧
      (∀ b : List Nat, b.length < 2 ^ 32 →
        md5 c b = digest_of (words ((blocks64
          (b ++ finish_bytes (md5_update (md5_pre c) b))).foldl md5_process (md5_pre c))) ∧
        (blocks64 (b ++ finish_bytes (md5_update (md5_pre c) b))).length =
          b.length / 64 + (if b.length % 64 < 56 then 1 else 2)) := by
  have hL : c.total0 % 64 < 64 := Nat.mod_lt _ (by norm_num)
  have hp := length_pending c hb
  refine ⟨?_, ?_, rfl, md5_finish_words c hb,
    fun b hlen => ⟨md5_eq_absorb c b hb, md5_block_count c b hlen⟩⟩
  · intro h
    have hlen : (pending c ++ [0x80] ++ List.replicate (55 - c.total0 % 64) 0
        ++ msglen_of c).length = 64 := by
      simp only [List.length_append, hp, List.length_singleton, List.length_replicate,
        length_msglen_of]
      omega
    rw [md5_finish_words c hb, finish_data_short c h, absorb_one_block _ _ hlen,
      blocks64_one_block _ hlen]
    exact ⟨rfl, rfl⟩
  · intro h
    have hx : (pending c ++ [0x80] ++ List.replicate (63 - c.total0 % 64) 0).length = 64 := by
      simp only [List.length_append, hp, List.length_singleton, List.length_replicate]
      omega
    have hy : (List.replicate 56 0 ++ msglen_of c).length = 64 := by
      simp only [List.length_append, List.length_replicate, length_msglen_of]
    rw [md5_finish_words c hb, finish_data_long c h, absorb_two_blocks _ _ _ hx hy,
      blocks64_two_blocks _ _ hx hy]
    exact ⟨rfl, rfl⟩

set_option maxRecDepth 4000 in
/-- Witness of C13: a context with 55 pending bytes finalises with one
compression, a context with 56 pending bytes with two. -/
theorem md5_finish_one_or_two_blocks_witness :
    (List.replicate 64 0x61).length = 64 ∧
      (blocks64 (pending ⟨55, 0, 1, 2, 3, 4, List.replicate 64 0x61⟩ ++
        finish_bytes ⟨55, 0, 1, 2, 3, 4, List.replicate 64 0x61⟩)).length = 1 ∧
      (blocks64 (pending ⟨56, 0, 1, 2, 3, 4, List.replicate 64 0x61⟩ ++
        finish_bytes ⟨56, 0, 1, 2, 3, 4, List.replicate 64 0x61⟩)).length = 2 ∧
      words (md5_finish ⟨55, 0, 1, 2, 3, 4, List.replicate 64 0x61⟩).1 =
        words (md5_process ⟨55, 0, 1, 2, 3, 4, List.replicate 64 0x61⟩
          (pending ⟨55, 0, 1, 2, 3, 4, List.replicate 64 0x61⟩ ++ [0x80] ++
            List.replicate (55 - 55 % 64) 0 ++
            msglen_of ⟨55, 0, 1, 2, 3, 4, List.replicate 64 0x61⟩)) :=
  ⟨by decide, by decide, by decide,
    ((md5_finish_one_or_two_blocks ⟨55, 0, 1, 2, 3, 4, List.replicate 64 0x61⟩
      (by decide)).1 (by decide)).1⟩

/-! ### Associativity of the streaming feed -/

theorem md5_update_update_totals (c : md5_t) (a b : List Nat)
    (hlen : a.length + b.length < 2 ^ 32) :
    (md5_update (md5_update c a) b).total0 = (md5_update c (a ++ b)).total0 ∧
      (md5_update (md5_update c a) b).total1 = (md5_update c (a ++ b)).total1 := by
  by_cases ha : 0 < a.length
  · by_cases hb : 0 < b.length
    · have hab : 0 < (a ++ b).length := by
        rw [List.length_append]
        omega
      rw [md5_update_total0 _ b hb, md5_update_total1 _ b hb, md5_update_total0 c a ha,
        md5_update_total1 c a ha, md5_update_total0 c _ hab, md5_update_total1 c _ hab,
        List.length_append]
      norm_num at hlen ⊢
      refine ⟨by omega, ?_⟩
      split_ifs <;> omega
    · have hnil : b = [] := List.length_eq_zero.mp (by omega)
      subst hnil
      rw [md5_update_nil, List.append_nil]
      exact ⟨rfl, rfl⟩
  · have hnil : a = [] := List.length_eq_zero.mp (by omega)
    subst hnil
    rw [md5_update_nil, List.nil_append]
    exact ⟨rfl, rfl⟩

/-- C14. Feed is associative on an arbitrary context: for byte sequences `a`
and `b` with `|a| + |b| < 2^32`, feeding `a` and then `b` leaves the same
state words, the same counter words and the same bytes on the occupied prefix
of the buffer (its first `total[0] mod 64` bytes) as feeding `a ++ b`. -/
theorem md5_update_assoc (c : md5_t) (a b : List Nat) (hb : c.buffer.length = 64)
    (hlen : a.length + b.length < 2 ^ 32) :
    words (md5_update (md5_update c a) b) = words (md5_update c (a ++ b)) ∧
      (md5_update (md5_update c a) b).total0 = (md5_update c (a ++ b)).total0 ∧
      (md5_update (md5_update c a) b).total1 = (md5_update c (a ++ b)).total1 ∧
      (md5_update (md5_update c a) b).buffer.take ((md5_update (md5_update c a) b).total0 % 64) =
        (md5_update c (a ++ b)).buffer.take ((md5_update c (a ++ b)).total0 % 64) := by
  obtain ⟨hl1, hw1, hp1⟩ := md5_update_view c a hb
  obtain ⟨_, hw2, hp2⟩ := md5_update_view (md5_update c a) b hl1
  obtain ⟨_, hw3, hp3⟩ := md5_update_view c (a ++ b) hb
  obtain ⟨ht0, ht1⟩ := md5_update_update_totals c a b hlen
  refine ⟨?_, ht0, ht1, ?_⟩
  · rw [hw2, hw3, hp1, ← List.append_assoc, absorb_append c (pending c ++ a)]
    exact absorb_words _ _ _ hw1
  · show pending (md5_update (md5_update c a) b) = pending (md5_update c (a ++ b))
    rw [hp2, hp3, hp1, ← List.append_assoc, ← rest64_append]

/-- Witness of C14: 60 bytes and then 10 bytes fed to a context holding five
pending bytes, against the 70 bytes fed at once. -/
theorem md5_update_assoc_witness :
    (List.replicate 64 9).length = 64 ∧
      (List.replicate 60 1).length + (List.replicate 10 2).length < 2 ^ 32 ∧
      words (md5_update (md5_update ⟨5, 0, 10, 11, 12, 13, List.replicate 64 9⟩
          (List.replicate 60 1)) (List.replicate 10 2)) =
        words (md5_update ⟨5, 0, 10, 11, 12, 13, List.replicate 64 9⟩
          (List.replicate 60 1 ++ List.replicate 10 2)) :=
  ⟨by decide, by decide,
    (md5_update_assoc ⟨5, 0, 10, 11, 12, 13, List.replicate 64 9⟩ (List.replicate 60 1)
      (List.replicate 10 2) (by decide) (by decide)).1⟩

/-! ### Counter carry -/

/-- C21. Counter carry: for every context (its two counter words being 32-bit
words) and every call of `md5_update` with `1 <= ilen < 2^32`, the new counter
satisfies `total[0]' + 2^32 * total[1]' =
(total[0] + 2^32 * total[1] + ilen) mod 2^64`: `total[0]` is advanced modulo
`2^32`, and `total[1]` is incremented by one (modulo `2^32`) exactly when that
32-bit addition wraps and is unchanged otherwise. -/
theorem md5_update_counter_carry (c : md5_t) (inp : List Nat) (h0 : c.total0 < 2 ^ 32)
    (h1 : c.total1 < 2 ^ 32) (hpos : 1 ≤ inp.length) (hn : inp.length < 2 ^ 32) :
    (md5_update c inp).total0 + 2 ^ 32 * (md5_update c inp).total1 =
        (c.total0 + 2 ^ 32 * c.total1 + inp.length) % 2 ^ 64 ∧
      (md5_update c inp).total0 = (c.total0 + inp.length) % 2 ^ 32 ∧
      (2 ^ 32 ≤ c.total0 + inp.length →
        (md5_update c inp).total1 = (c.total1 + 1) % 2 ^ 32) ∧
      (c.total0 + inp.length < 2 ^ 32 → (md5_update c inp).total1 = c.total1) := by
  rw [md5_update_total0 c inp hpos, md5_update_total1 c inp hpos]
  refine ⟨?_, rfl, ?_, ?_⟩
  · norm_num at h0 h1 hn ⊢
    split_ifs <;> omega
  · intro hw
    have hlt : (c.total0 + inp.length) % 2 ^ 32 < inp.length % 2 ^ 32 := by
      norm_num at h0 hn hw ⊢
      omega
    rw [if_pos hlt]
  · intro hw
    have hge : ¬ (c.total0 + inp.length) % 2 ^ 32 < inp.length % 2 ^ 32 := by
      norm_num at h0 hn hw ⊢
      omega
    rw [if_neg hge]

/-- Witness of C21: one byte fed when `total[0]` is `2^32 - 1` carries into
`total[1]`. -/
theorem md5_update_counter_carry_witness :
    (0xFFFFFFFF : Nat) < 2 ^ 32 ∧ (7 : Nat) < 2 ^ 32 ∧ 1 ≤ [0x61].length ∧
      (md5_update ⟨0xFFFFFFFF, 7, 1, 2, 3, 4, List.replicate 64 0⟩ [0x61]).total0 +
          2 ^ 32 * (md5_update ⟨0xFFFFFFFF, 7, 1, 2, 3, 4, List.replicate 64 0⟩ [0x61]).total1 =
        (0xFFFFFFFF + 2 ^ 32 * 7 + [0x61].length) % 2 ^ 64 ∧
      (md5_update ⟨0xFFFFFFFF, 7, 1, 2, 3, 4, List.replicate 64 0⟩ [0x61]).total1 = 8 :=
  ⟨by decide, by decide, by decide,
    (md5_update_counter_carry ⟨0xFFFFFFFF, 7, 1, 2, 3, 4, List.replicate 64 0⟩ [0x61]
      (by decide) (by decide) (by decide) (by decide)).1,
    by decide⟩

/-! ### Cross-correlation -/

/-- C12, the code at the failing input. For `t = [1]` and `x = [1, 2]` the
code writes `y = [2, 1]`, while the documented sum of `t[m] * x[n+m]` is 1 at
`n = 0` and 2 at `n = 1`. -/
theorem xcorr_i_not_documented :
    xcorr_i [1] 1 [1, 2] 2 = some [2, 1] ∧ xcorr_documented [1] [1, 2] 0 = 1 ∧
      xcorr_documented [1] [1, 2] 1 = 2 := by
  decide

theorem read_at_eq (a : List Int) (i : Int) (h0 : 0 ≤ i) (h1 : i < a.length) :
    read_at a i = some (zero_ext a i) := by
  have hlt : i.toNat < a.length := by omega
  simp only [read_at, zero_ext, Int.not_lt.mpr h0, if_false, List.getD_eq_getElem?_getD,
    List.getElem?_eq_getElem hlt, Option.getD_some]

theorem wrap32_of_range (z : Int) (h0 : -2 ^ 31 ≤ z) (h1 : z < 2 ^ 31) : wrap32 z = z := by
  unfold wrap32
  omega

theorem wrap32_wrap32 (z : Int) : wrap32 (wrap32 z) = wrap32 z := by
  unfold wrap32
  omega

theorem wrap32_step (acc p s : Int) :
    wrap32 (wrap32 (acc + wrap32 p) + s) = wrap32 (acc + (s + p)) := by
  unfold wrap32
  omega

theorem wrap32_range (z : Int) : -2 ^ 31 ≤ wrap32 z ∧ wrap32 z < 2 ^ 31 := by
  unfold wrap32
  omega

theorem corr_sum_eq (t x : List Int) (sx n kmax : Int) (fuel : Nat) (k acc : Int)
    (hk : 0 ≤ k) (hf : k + fuel = kmax + 1) (ht : kmax < t.length)
    (hx0 : 0 ≤ sx - (n - k)) (hx1 : sx - (n - kmax) < x.length)
    (hkn : kmax ≤ n) (hn : n + 1 < 2 ^ 31) (hx31 : (x.length : Int) ≤ 2 ^ 31)
    (hacc : wrap32 acc = acc) :
    corr_sum t x sx n kmax fuel k acc =
      some (wrap32 (acc + ∑ i in Finset.range fuel,
        zero_ext t (k + i) * zero_ext x (sx - (n - (k + i))))) := by
  induction fuel generalizing k acc with
  | zero =>
    have hgt : ¬ k ≤ kmax := by
      simp only [Nat.cast_zero, Int.add_zero] at hf
      omega
    simp only [corr_sum, hgt, if_false, Finset.range_zero, Finset.sum_empty, Int.add_zero, hacc]
  | succ m ih =>
    have hle : k ≤ kmax := by
      push_cast at hf
      omega
    have hw1 : wrap32 (n - k) = n - k :=
      wrap32_of_range _ (by omega) (by omega)
    have hw2 : wrap32 (sx - (n - k)) = sx - (n - k) :=
      wrap32_of_range _ (by omega) (by omega)
    have hw3 : wrap32 (k + 1) = k + 1 :=
      wrap32_of_range _ (by omega) (by omega)
    have hrt : read_at t k = some (zero_ext t k) := read_at_eq t k hk (by omega)
    have hrx : read_at x (sx - (n - k)) = some (zero_ext x (sx - (n - k))) :=
      read_at_eq x _ hx0 (by omega)
    simp only [corr_sum, hle, if_true, hw1, hw2, hw3, hrt, hrx]
    rw [ih (k + 1) _ (by omega) (by push_cast at hf ⊢; omega) (by omega) (wrap32_wrap32 _),
      Finset.sum_range_succ', wrap32_step]
    have hS : ∀ i ∈ Finset.range m,
        zero_ext t (k + 1 + (i : Int)) * zero_ext x (sx - (n - (k + 1 + (i : Int)))) =
          zero_ext t (k + ((i + 1 : Nat) : Int)) *
            zero_ext x (sx - (n - (k + ((i + 1 : Nat) : Int)))) := by
      intro i _
      have hc : k + 1 + (i : Int) = k + ((i + 1 : Nat) : Int) := by
        push_cast
        omega
      rw [hc]
    rw [Finset.sum_congr rfl hS]
    simp only [Nat.cast_zero, Int.add_zero]

theorem corr_row_of_range (t x : List Int) (n : Nat) (kmin kmax : Int) (h0 : 0 ≤ kmin)
    (hle : kmin ≤ kmax + 1) (ht : kmax < t.length)
    (hx0 : 0 ≤ (x.length : Int) - 1 - (n - kmin))
    (hx1 : (x.length : Int) - 1 - (n - kmax) < x.length)
    (hkn : kmax ≤ n) (hn : (n : Int) + 1 < 2 ^ 31) (hx31 : (x.length : Int) ≤ 2 ^ 31)
    (hset : (Finset.range t.length).filter
        (fun k : Nat => 0 ≤ (k : Int) + ((x.length : Int) - 1 - n) ∧
          (k : Int) + ((x.length : Int) - 1 - n) < x.length) =
      Finset.Ico kmin.toNat (kmax + 1).toNat) :
    corr_sum t x ((x.length : Int) - 1) n kmax (kmax + 1 - kmin).toNat kmin 0 =
      some (wrap32 (corr_value t x n)) := by
  rw [corr_sum_eq t x _ n kmax _ kmin 0 h0 (by omega) ht hx0 hx1 hkn hn hx31
    (wrap32_of_range 0 (by omega) (by omega))]
  unfold corr_value
  rw [hset, Finset.sum_Ico_eq_sum_range, Int.zero_add]
  have hfuel : (kmax + 1 - kmin).toNat = (kmax + 1).toNat - kmin.toNat := by omega
  rw [hfuel]
  congr 2
  apply Finset.sum_congr rfl
  intro i _
  have hc : ((kmin.toNat + i : Nat) : Int) = kmin + i := by omega
  rw [hc]
  congr 2
  ring

theorem corr_row (t x : List Int) (n : Nat) (ht : 1 ≤ t.length) (hx : 1 ≤ x.length)
    (hn : n + 1 < t.length + x.length) (hsz : t.length + x.length < 2 ^ 31) :
    corr_sum t x ((x.length : Int) - 1) n
        (if (n : Int) - ((t.length : Int) - 1) < 0 then (n : Int) else (t.length : Int) - 1)
        ((if (n : Int) - ((t.length : Int) - 1) < 0 then (n : Int) else (t.length : Int) - 1) + 1
          - (if (n : Int) - ((x.length : Int) - 1) > 0 then (n : Int) - ((x.length : Int) - 1)
              else 0)).toNat
        (if (n : Int) - ((x.length : Int) - 1) > 0 then (n : Int) - ((x.length : Int) - 1) else 0)
        0 = some (wrap32 (corr_value t x n)) := by
  have hsz' : (t.length : Int) + x.length < 2 ^ 31 := by
    exact_mod_cast hsz
  split_ifs with h1 h2 h2
  all_goals
    apply corr_row_of_range
    any_goals omega
    ext k
    simp only [Finset.mem_filter, Finset.mem_range, Finset.mem_Ico]
    omega

theorem corr_rows_eq (t x : List Int) (ht : 1 ≤ t.length) (hx : 1 ≤ x.length)
    (hsz : t.length + x.length < 2 ^ 31) (m n0 : Nat)
    (h : n0 + m + 1 ≤ t.length + x.length) :
    corr_rows t x ((x.length : Int) - 1) ((t.length : Int) - 1) m (n0 : Int) =
      some ((List.range m).map (fun i => wrap32 (corr_value t x (n0 + i)))) := by
  induction m generalizing n0 with
  | zero => rfl
  | succ m ih =>
    have hsz' : (t.length : Int) + x.length < 2 ^ 31 := by
      exact_mod_cast hsz
    have hw1 : wrap32 ((n0 : Int) - ((t.length : Int) - 1)) = (n0 : Int) - ((t.length : Int) - 1) :=
      wrap32_of_range _ (by omega) (by omega)
    have hw2 : wrap32 ((n0 : Int) - ((x.length : Int) - 1)) = (n0 : Int) - ((x.length : Int) - 1) :=
      wrap32_of_range _ (by omega) (by omega)
    have hw3 : wrap32 ((n0 : Int) + 1) = ((n0 + 1 : Nat) : Int) := by
      rw [wrap32_of_range _ (by omega) (by omega)]
      push_cast
      rfl
    simp only [corr_rows, hw1, hw2, hw3]
    rw [corr_row t x n0 ht hx (by omega) hsz, ih (n0 + 1) (by omega)]
    have hm : List.map (fun i => wrap32 (corr_value t x (n0 + 1 + i))) (List.range m) =
        List.map ((fun i => wrap32 (corr_value t x (n0 + i))) ∘ Nat.succ) (List.range m) := by
      apply List.map_congr_left
      intro i _
      simp only [Function.comp_apply, Nat.succ_eq_add_one]
      rw [show n0 + 1 + i = n0 + (i + 1) by omega]
    simp only [List.range_succ_eq_map, List.map_cons, List.map_map, Nat.add_zero, hm]

theorem xcorr_i_eq (t x : List Int) (ht : 1 ≤ t.length) (hx : 1 ≤ x.length)
    (hsz : t.length + x.length < 2 ^ 31) :
    xcorr_i t t.length x x.length =
      some ((List.range (t.length + x.length - 1)).map (fun n => wrap32 (corr_value t x n))) := by
  have hsz' : (t.length : Int) + x.length < 2 ^ 31 := by
    exact_mod_cast hsz
  have hw1 : wrap32 ((x.length : Int) + t.length) = (x.length : Int) + t.length :=
    wrap32_of_range _ (by omega) (by omega)
  have hw2 : wrap32 ((x.length : Int) + t.length - 1) = (x.length : Int) + t.length - 1 :=
    wrap32_of_range _ (by omega) (by omega)
  have hw3 : wrap32 ((x.length : Int) - 1) = (x.length : Int) - 1 :=
    wrap32_of_range _ (by omega) (by omega)
  have hw4 : wrap32 ((t.length : Int) - 1) = (t.length : Int) - 1 :=
    wrap32_of_range _ (by omega) (by omega)
  have hsy : ((x.length : Int) + (t.length : Int) - 1).toNat = t.length + x.length - 1 := by
    omega
  unfold xcorr_i
  simp only [hw1, hw2, hw3, hw4, hsy]
  have h := corr_rows_eq t x ht hx hsz (t.length + x.length - 1) 0 (by omega)
  simp only [Nat.cast_zero, Nat.zero_add] at h
  exact h

theorem map_range_getElem (f : Nat → Int) (m n : Nat) (h : n < m) :
    ((List.range m).map f)[n]? = some (f n) := by
  simp only [List.getElem?_map, List.getElem?_range h, Option.map_some']

theorem zero_ext_natCast (a : List Int) (k : Nat) : zero_ext a (k : Int) = a.getD k 0 := by
  simp only [zero_ext, Int.toNat_ofNat]
  rw [if_neg (by omega)]

theorem corr_value_eq_conv (t x : List Int) (n : Nat) :
    corr_value t x n = conv_value t x.reverse n := by
  unfold corr_value conv_value
  have hset : (Finset.range t.length).filter
      (fun k : Nat => 0 ≤ (k : Int) + ((x.length : Int) - 1 - n) ∧
        (k : Int) + ((x.length : Int) - 1 - n) < x.length) =
      (Finset.range t.length).filter (fun k : Nat => k ≤ n ∧ n - k < x.reverse.length) := by
    ext k
    simp only [Finset.mem_filter, Finset.mem_range, List.length_reverse]
    omega
  rw [hset]
  apply Finset.sum_congr rfl
  intro k hk
  simp only [Finset.mem_filter, Finset.mem_range, List.length_reverse] at hk
  obtain ⟨_, hkn, hnk⟩ := hk
  have hidx : (k : Int) + ((x.length : Int) - 1 - n) = ((x.length - 1 - (n - k) : Nat) : Int) := by
    omega
  rw [zero_ext_natCast, hidx, zero_ext_natCast]
  congr 1
  simp only [List.getD_eq_getElem?_getD]
  rw [List.getElem?_reverse hnk]

theorem wrap32_modEq (z : Int) : (wrap32 z - z) % 2 ^ 32 = 0 := by
  unfold wrap32
  omega

/-- C22, counterexample. For `t = [65536]` and `x = [65536]` the only output
is `y[0] = 0`, because the product `65536 * 65536 = 2^32` is formed in `int`,
while the sum of `t[k] * x[k + (sx-1-n)]` over the valid `k` is `4294967296`.
For `t = [2147483647, 1]` and `x = [1, 1]` every product fits in an `int` but
the accumulation does not: `y[1] = -2147483648`, while the sum is
`2147483648`. -/
theorem xcorr_i_value_overflow :
    xcorr_i [65536] 1 [65536] 1 = some [0] ∧
      corr_value [65536] [65536] 0 = 4294967296 ∧
      conv_value [65536] [(65536 : Int)].reverse 0 = 4294967296 ∧
      xcorr_i [2147483647, 1] 2 [1, 1] 2 = some [2147483647, -2147483648, 1] ∧
      corr_value [2147483647, 1] [1, 1] 1 = 2147483648 := by
  decide

/-- C22, amended. For integer vectors `t` of size `st >= 1` and `x` of size
`sx >= 1` with `st + sx` below `2^31` (the sizes and `st+sx-1` are `int`
values), `xcorr_i` reads no index out of range and writes exactly the
`st+sx-1` outputs `y[0..st+sx-2]`. For every such `n`, with `s` the sum of
`t[k] * x[k + (sx-1-n)]` over all `k` with `0 <= k < st` and
`0 <= k + (sx-1-n) < sx`, the output `y[n]` is `s` reduced to a 32-bit `int`:
it lies in `-2^31 .. 2^31-1` and differs from `s` by a multiple of `2^32`, so
it is `s` itself whenever `s` lies in that range; `s` is also entry `n` of the
full linear convolution of `t` with the reversal of `x`. -/
theorem xcorr_i_value (t x : List Int) (ht : 1 ≤ t.length) (hx : 1 ≤ x.length)
    (hsz : t.length + x.length < 2 ^ 31) :
    ∃ y : List Int, xcorr_i t t.length x x.length = some y ∧
      y.length = t.length + x.length - 1 ∧
      (∀ n, n < t.length + x.length - 1 →
        ∃ v s : Int, y[n]? = some v ∧
          s = ∑ k in (Finset.range t.length).filter
              (fun k : Nat => 0 ≤ (k : Int) + ((x.length : Int) - 1 - n) ∧
                (k : Int) + ((x.length : Int) - 1 - n) < x.length),
            zero_ext t k * zero_ext x ((k : Int) + ((x.length : Int) - 1 - n)) ∧
          s = conv_value t x.reverse n ∧
          v = wrap32 s ∧ -2 ^ 31 ≤ v ∧ v < 2 ^ 31 ∧ (v - s) % 2 ^ 32 = 0 ∧
          (-2 ^ 31 ≤ s → s < 2 ^ 31 → v = s)) := by
  refine ⟨_, xcorr_i_eq t x ht hx hsz, ?_, ?_⟩
  · simp only [List.length_map, List.length_range]
  · intro n hn
    refine ⟨wrap32 (corr_value t x n), corr_value t x n, map_range_getElem _ _ _ hn, rfl,
      corr_value_eq_conv t x n, rfl, (wrap32_range _).1, (wrap32_range _).2, wrap32_modEq _,
      fun h0 h1 => wrap32_of_range _ h0 h1⟩

/-- Witness of C22 on `t = [1, 2, 3]` and `x = [4, 5]`. -/
theorem xcorr_i_value_witness :
    1 ≤ [(1 : Int), 2, 3].length ∧ 1 ≤ [(4 : Int), 5].length ∧
      [(1 : Int), 2, 3].length + [(4 : Int), 5].length < 2 ^ 31 ∧
      xcorr_i [1, 2, 3] 3 [4, 5] 2 = some [5, 14, 23, 12] ∧
      ∃ y : List Int, xcorr_i [1, 2, 3] [(1 : Int), 2, 3].length [4, 5] [(4 : Int), 5].length =
        some y ∧ y.length = [(1 : Int), 2, 3].length + [(4 : Int), 5].length - 1 :=
  ⟨by decide, by decide, by decide, by decide,
    (xcorr_i_value [1, 2, 3] [4, 5] (by decide) (by decide) (by decide)).imp
      (fun _ h => ⟨h.1, h.2.1⟩)⟩

theorem testBit_eq_false_of_lt (x i : Nat) (hx : x < 2 ^ 32) (hi : 32 ≤ i) :
    x.testBit i = false :=
  Nat.testBit_lt_two_pow (Nat.lt_of_lt_of_le hx (Nat.pow_le_pow_right (by norm_num) hi))

theorem testBit_not32 (x i : Nat) (hx : x < 2 ^ 32) :
    (not32 x).testBit i = (decide (i < 32) && !x.testBit i) := by
  have hc : not32 x = 2 ^ 32 - (x + 1) := by
    unfold not32
    omega
  rw [hc, Nat.testBit_two_pow_sub_succ hx]

theorem F1_eq_rfc_F (x y z : Nat) (hx : x < 2 ^ 32) (hz : z < 2 ^ 32) :
    F1 x y z = rfc_F x y z := by
  apply Nat.eq_of_testBit_eq
  intro i
  simp only [F1, rfc_F, Nat.testBit_xor, Nat.testBit_and, Nat.testBit_or, testBit_not32 x i hx]
  by_cases hi : i < 32
  · simp only [hi, decide_True, Bool.true_and]
    cases x.testBit i <;> cases y.testBit i <;> cases z.testBit i <;> rfl
  · rw [testBit_eq_false_of_lt x i hx (by omega), testBit_eq_false_of_lt z i hz (by omega)]
    simp

theorem F2_eq_rfc_G (x y z : Nat) (hy : y < 2 ^ 32) (hz : z < 2 ^ 32) :
    F2 x y z = rfc_G x y z := by
  apply Nat.eq_of_testBit_eq
  intro i
  simp only [F2, rfc_G, Nat.testBit_xor, Nat.testBit_and, Nat.testBit_or, testBit_not32 z i hz]
  by_cases hi : i < 32
  · simp only [hi, decide_True, Bool.true_and]
    cases x.testBit i <;> cases y.testBit i <;> cases z.testBit i <;> rfl
  · rw [testBit_eq_false_of_lt y i hy (by omega), testBit_eq_false_of_lt z i hz (by omega)]
    simp

/-- C16. The optimised round functions are those of RFC 1321: for all 32-bit
words `x`, `y`, `z`, the function of the first phase `z ^ (x & (y ^ z))` equals
`(x & y) | (~x & z)` and the function of the second phase
`y ^ (z & (x ^ y))` equals `(x & z) | (y & ~z)`. -/
theorem round_functions_rfc (x y z : Nat) (hx : x < 2 ^ 32) (hy : y < 2 ^ 32)
    (hz : z < 2 ^ 32) :
    (z ^^^ (x &&& (y ^^^ z))) = ((x &&& y) ||| ((0xFFFFFFFF - x) &&& z)) ∧
      (y ^^^ (z &&& (x ^^^ y))) = ((x &&& z) ||| (y &&& (0xFFFFFFFF - z))) ∧
      F1 x y z = rfc_F x y z ∧ F2 x y z = rfc_G x y z :=
  ⟨F1_eq_rfc_F x y z hx hz, F2_eq_rfc_G x y z hy hz, F1_eq_rfc_F x y z hx hz,
    F2_eq_rfc_G x y z hy hz⟩

/-- Witness of C16 on three words. -/
theorem round_functions_rfc_witness :
    (0x67452301 : Nat) < 2 ^ 32 ∧ (0xEFCDAB89 : Nat) < 2 ^ 32 ∧ (0x98BADCFE : Nat) < 2 ^ 32 ∧
      F1 0x67452301 0xEFCDAB89 0x98BADCFE = rfc_F 0x67452301 0xEFCDAB89 0x98BADCFE ∧
      F2 0x67452301 0xEFCDAB89 0x98BADCFE = rfc_G 0x67452301 0xEFCDAB89 0x98BADCFE :=
  ⟨by decide, by decide, by decide,
    (round_functions_rfc 0x67452301 0xEFCDAB89 0x98BADCFE (by decide) (by decide)
      (by decide)).2.2⟩

theorem S_lt (x n : Nat) (hx : x < 2 ^ 32) (h1 : 1 ≤ n) (h31 : n ≤ 31) :
    S x n = rotl32 x n ∧ S x n < 2 ^ 32 := by
  have hsplit : (2 : Nat) ^ 32 = 2 ^ n * 2 ^ (32 - n) := by
    rw [← Nat.pow_add]
    congr 1
    omega
  have hb : x / 2 ^ (32 - n) < 2 ^ n := by
    apply Nat.div_lt_of_lt_mul
    rw [Nat.mul_comm, ← hsplit]
    exact hx
  have e : (x * 2 ^ n) % 2 ^ 32 = 2 ^ n * (x % 2 ^ (32 - n)) := by
    rw [hsplit, Nat.mul_comm x, Nat.mul_mod_mul_left]
  have hmod : x % 2 ^ (32 - n) < 2 ^ (32 - n) := Nat.mod_lt _ (Nat.pow_pos (by norm_num))
  have hrot : S x n = rotl32 x n := by
    unfold S rotl32
    rw [and_FFFFFFFF, Nat.mod_eq_of_lt hx, Nat.shiftLeft_eq, Nat.shiftRight_eq_div_pow, e,
      ← Nat.mul_add_lt_is_or hb]
  refine ⟨hrot, ?_⟩
  rw [hrot]
  unfold rotl32
  rw [e, hsplit]
  calc 2 ^ n * (x % 2 ^ (32 - n)) + x / 2 ^ (32 - n)
      < 2 ^ n * (x % 2 ^ (32 - n)) + 2 ^ n := by omega
    _ = 2 ^ n * (x % 2 ^ (32 - n) + 1) := by ring
    _ ≤ 2 ^ n * 2 ^ (32 - n) := Nat.mul_le_mul_left _ hmod

theorem testBit_S (x n i : Nat) (hx : x < 2 ^ 32) (h1 : 1 ≤ n) (h31 : n ≤ 31) (hi : i < 32) :
    (S x n).testBit ((i + n) % 32) = x.testBit i := by
  unfold S
  rw [and_FFFFFFFF, Nat.mod_eq_of_lt hx, Nat.testBit_or, Nat.testBit_mod_two_pow,
    Nat.testBit_shiftLeft, Nat.testBit_shiftRight]
  have hlt : (i + n) % 32 < 32 := Nat.mod_lt _ (by norm_num)
  by_cases hw : i + n < 32
  · have hm : (i + n) % 32 = i + n := Nat.mod_eq_of_lt hw
    rw [hm, testBit_eq_false_of_lt x (32 - n + (i + n)) hx (by omega)]
    have hsub : i + n - n = i := by omega
    simp [hw, hsub]
  · have hm : (i + n) % 32 = i + n - 32 := by omega
    have hidx : 32 - n + (i + n - 32) = i := by omega
    have hnot : ¬ (i + n - 32 ≥ n) := by omega
    rw [hm, hidx]
    simp [hnot]

/-! ### The 64 rounds as a table -/

theorem md5_rounds_eq_fold (A B C D : Nat) (data : List Nat) :
    md5_rounds A B C D data =
      code_steps.foldl (code_step (fun k => GET_UINT32_LE data (4 * k))) (A, B, C, D) := by
  unfold md5_rounds
  lift_lets
  intro X A1 D1 C1 B1 A2 D2 C2 B2 A3 D3 C3 B3 A4 D4 C4 B4 A5 D5 C5 B5 A6 D6 C6 B6 A7 D7 C7 B7 A8
    D8 C8 B8 A9 D9 C9 B9 A10 D10 C10 B10 A11 D11 C11 B11 A12 D12 C12 B12 A13 D13 C13 B13 A14 D14
    C14 B14 A15 D15 C15 B15 A16 D16 C16 B16
  unfold code_steps
  simp only [List.foldl_cons, List.foldl_nil]
  rw [show code_step X (A, B, C, D) (1, 0, 7, 0xD76AA478) = (D, A1, B, C) from rfl]
  rw [show code_step X (D, A1, B, C) (1, 1, 12, 0xE8C7B756) = (C, D1, A1, B) from rfl]
  rw [show code_step X (C, D1, A1, B) (1, 2, 17, 0x242070DB) = (B, C1, D1, A1) from rfl]
  rw [show code_step X (B, C1, D1, A1) (1, 3, 22, 0xC1BDCEEE) = (A1, B1, C1, D1) from rfl]
  rw [show code_step X (A1, B1, C1, D1) (1, 4, 7, 0xF57C0FAF) = (D1, A2, B1, C1) from rfl]
  rw [show code_step X (D1, A2, B1, C1) (1, 5, 12, 0x4787C62A) = (C1, D2, A2, B1) from rfl]
  rw [show code_step X (C1, D2, A2, B1) (1, 6, 17, 0xA8304613) = (B1, C2, D2, A2) from rfl]
  rw [show code_step X (B1, C2, D2, A2) (1, 7, 22, 0xFD469501) = (A2, B2, C2, D2) from rfl]
  rw [show code_step X (A2, B2, C2, D2) (1, 8, 7, 0x698098D8) = (D2, A3, B2, C2) from rfl]
  rw [show code_step X (D2, A3, B2, C2) (1, 9, 12, 0x8B44F7AF) = (C2, D3, A3, B2) from rfl]
  rw [show code_step X (C2, D3, A3, B2) (1, 10, 17, 0xFFFF5BB1) = (B2, C3, D3, A3) from rfl]
  rw [show code_step X (B2, C3, D3, A3) (1, 11, 22, 0x895CD7BE) = (A3, B3, C3, D3) from rfl]
  rw [show code_step X (A3, B3, C3, D3) (1, 12, 7, 0x6B901122) = (D3, A4, B3, C3) from rfl]
  rw [show code_step X (D3, A4, B3, C3) (1, 13, 12, 0xFD987193) = (C3, D4, A4, B3) from rfl]
  rw [show code_step X (C3, D4, A4, B3) (1, 14, 17, 0xA679438E) = (B3, C4, D4, A4) from rfl]
  rw [show code_step X (B3, C4, D4, A4) (1, 15, 22, 0x49B40821) = (A4, B4, C4, D4) from rfl]
  rw [show code_step X (A4, B4, C4, D4) (2, 1, 5, 0xF61E2562) = (D4, A5, B4, C4) from rfl]
  rw [show code_step X (D4, A5, B4, C4) (2, 6, 9, 0xC040B340) = (C4, D5, A5, B4) from rfl]
  rw [show code_step X (C4, D5, A5, B4) (2, 11, 14, 0x265E5A51) = (B4, C5, D5, A5) from rfl]
  rw [show code_step X (B4, C5, D5, A5) (2, 0, 20, 0xE9B6C7AA) = (A5, B5, C5, D5) from rfl]
  rw [show code_step X (A5, B5, C5, D5) (2, 5, 5, 0xD62F105D) = (D5, A6, B5, C5) from rfl]
  rw [show code_step X (D5, A6, B5, C5) (2, 10, 9, 0x02441453) = (C5, D6, A6, B5) from rfl]
  rw [show code_step X (C5, D6, A6, B5) (2, 15, 14, 0xD8A1E681) = (B5, C6, D6, A6) from rfl]
  rw [show code_step X (B5, C6, D6, A6) (2, 4, 20, 0xE7D3FBC8) = (A6, B6, C6, D6) from rfl]
  rw [show code_step X (A6, B6, C6, D6) (2, 9, 5, 0x21E1CDE6) = (D6, A7, B6, C6) from rfl]
  rw [show code_step X (D6, A7, B6, C6) (2, 14, 9, 0xC33707D6) = (C6, D7, A7, B6) from rfl]
  rw [show code_step X (C6, D7, A7, B6) (2, 3, 14, 0xF4D50D87) = (B6, C7, D7, A7) from rfl]
  rw [show code_step X (B6, C7, D7, A7) (2, 8, 20, 0x455A14ED) = (A7, B7, C7, D7) from rfl]
  rw [show code_step X (A7, B7, C7, D7) (2, 13, 5, 0xA9E3E905) = (D7, A8, B7, C7) from rfl]
  rw [show code_step X (D7, A8, B7, C7) (2, 2, 9, 0xFCEFA3F8) = (C7, D8, A8, B7) from rfl]
  rw [show code_step X (C7, D8, A8, B7) (2, 7, 14, 0x676F02D9) = (B7, C8, D8, A8) from rfl]
  rw [show code_step X (B7, C8, D8, A8) (2, 12, 20, 0x8D2A4C8A) = (A8, B8, C8, D8) from rfl]
  rw [show code_step X (A8, B8, C8, D8) (3, 5, 4, 0xFFFA3942) = (D8, A9, B8, C8) from rfl]
  rw [show code_step X (D8, A9, B8, C8) (3, 8, 11, 0x8771F681) = (C8, D9, A9, B8) from rfl]
  rw [show code_step X (C8, D9, A9, B8) (3, 11, 16, 0x6D9D6122) = (B8, C9, D9, A9) from rfl]
  rw [show code_step X (B8, C9, D9, A9) (3, 14, 23, 0xFDE5380C) = (A9, B9, C9, D9) from rfl]
  rw [show code_step X (A9, B9, C9, D9) (3, 1, 4, 0xA4BEEA44) = (D9, A10, B9, C9) from rfl]
  rw [show code_step X (D9, A10, B9, C9) (3, 4, 11, 0x4BDECFA9) = (C9, D10, A10, B9) from rfl]
  rw [show code_step X (C9, D10, A10, B9) (3, 7, 16, 0xF6BB4B60) = (B9, C10, D10, A10) from rfl]
  rw [show code_step X (B9, C10, D10, A10) (3, 10, 23, 0xBEBFBC70) = (A10, B10, C10, D10) from rfl]
  rw [show code_step X (A10, B10, C10, D10) (3, 13, 4, 0x289B7EC6) = (D10, A11, B10, C10) from rfl]
  rw [show code_step X (D10, A11, B10, C10) (3, 0, 11, 0xEAA127FA) = (C10, D11, A11, B10) from rfl]
  rw [show code_step X (C10, D11, A11, B10) (3, 3, 16, 0xD4EF3085) = (B10, C11, D11, A11) from rfl]
  rw [show code_step X (B10, C11, D11, A11) (3, 6, 23, 0x04881D05) = (A11, B11, C11, D11) from rfl]
  rw [show code_step X (A11, B11, C11, D11) (3, 9, 4, 0xD9D4D039) = (D11, A12, B11, C11) from rfl]
  rw [show code_step X (D11, A12, B11, C11) (3, 12, 11, 0xE6DB99E5) = (C11, D12, A12, B11) from rfl]
  rw [show code_step X (C11, D12, A12, B11) (3, 15, 16, 0x1FA27CF8) = (B11, C12, D12, A12) from rfl]
  rw [show code_step X (B11, C12, D12, A12) (3, 2, 23, 0xC4AC5665) = (A12, B12, C12, D12) from rfl]
  rw [show code_step X (A12, B12, C12, D12) (4, 0, 6, 0xF4292244) = (D12, A13, B12, C12) from rfl]
  rw [show code_step X (D12, A13, B12, C12) (4, 7, 10, 0x432AFF97) = (C12, D13, A13, B12) from rfl]
  rw [show code_step X (C12, D13, A13, B12) (4, 14, 15, 0xAB9423A7) = (B12, C13, D13, A13) from rfl]
  rw [show code_step X (B12, C13, D13, A13) (4, 5, 21, 0xFC93A039) = (A13, B13, C13, D13) from rfl]
  rw [show code_step X (A13, B13, C13, D13) (4, 12, 6, 0x655B59C3) = (D13, A14, B13, C13) from rfl]
  rw [show code_step X (D13, A14, B13, C13) (4, 3, 10, 0x8F0CCC92) = (C13, D14, A14, B13) from rfl]
  rw [show code_step X (C13, D14, A14, B13) (4, 10, 15, 0xFFEFF47D) = (B13, C14, D14, A14) from rfl]
  rw [show code_step X (B13, C14, D14, A14) (4, 1, 21, 0x85845DD1) = (A14, B14, C14, D14) from rfl]
  rw [show code_step X (A14, B14, C14, D14) (4, 8, 6, 0x6FA87E4F) = (D14, A15, B14, C14) from rfl]
  rw [show code_step X (D14, A15, B14, C14) (4, 15, 10, 0xFE2CE6E0) = (C14, D15, A15, B14) from rfl]
  rw [show code_step X (C14, D15, A15, B14) (4, 6, 15, 0xA3014314) = (B14, C15, D15, A15) from rfl]
  rw [show code_step X (B14, C15, D15, A15) (4, 13, 21, 0x4E0811A1) = (A15, B15, C15, D15) from rfl]
  rw [show code_step X (A15, B15, C15, D15) (4, 4, 6, 0xF7537E82) = (D15, A16, B15, C15) from rfl]
  rw [show code_step X (D15, A16, B15, C15) (4, 11, 10, 0xBD3AF235) = (C15, D16, A16, B15) from rfl]
  rw [show code_step X (C15, D16, A16, B15) (4, 2, 15, 0x2AD7D2BB) = (B15, C16, D16, A16) from rfl]
  rw [show code_step X (B15, C16, D16, A16) (4, 9, 21, 0xEB86D391) = (A16, B16, C16, D16) from rfl]

theorem code_steps_rotations : ∀ e ∈ code_steps, 1 ≤ e.2.2.1 ∧ e.2.2.1 ≤ 31 := by
  decide

/-- C17. The macro `S(x,n)` evaluated on a 32-bit word `x` is the left
rotation by `n` bits for every `n` in `1..31`: it moves bit `i` of `x` to bit
`(i + n) mod 32` and stays a 32-bit word.  The 64 calls of `P` in
`md5_process` are those of the table `code_steps`, and every rotation amount
in it lies in `1..31`, so neither shift of `S` is by 0 or by 32. -/
theorem S_is_rotation :
    (∀ x n : Nat, x < 2 ^ 32 → 1 ≤ n → n ≤ 31 →
        S x n = rotl32 x n ∧ S x n < 2 ^ 32 ∧
        ∀ i, i < 32 → (S x n).testBit ((i + n) % 32) = x.testBit i) ∧
      (∀ (A B C D : Nat) (data : List Nat), md5_rounds A B C D data =
        code_steps.foldl (code_step (fun k => GET_UINT32_LE data (4 * k))) (A, B, C, D)) ∧
      (∀ e ∈ code_steps, 1 ≤ e.2.2.1 ∧ e.2.2.1 ≤ 31 ∧ 1 ≤ 32 - e.2.2.1 ∧ 32 - e.2.2.1 ≤ 31) := by
  refine ⟨?_, md5_rounds_eq_fold, ?_⟩
  · intro x n hx h1 h31
    exact ⟨(S_lt x n hx h1 h31).1, (S_lt x n hx h1 h31).2,
      fun i hi => testBit_S x n i hx h1 h31 hi⟩
  · intro e he
    obtain ⟨h1, h31⟩ := code_steps_rotations e he
    omega

/-- Witness of C17: the word `0x80000001` rotated by 7 bits. -/
theorem S_is_rotation_witness :
    (0x80000001 : Nat) < 2 ^ 32 ∧ S 0x80000001 7 = rotl32 0x80000001 7 ∧
      S 0x80000001 7 = 0xC0 :=
  ⟨by decide, (S_is_rotation.1 0x80000001 7 (by decide) (by decide) (by decide)).1, by decide⟩

/-! ### The table-driven compression function -/

theorem code_steps_eq_table :
    code_steps = (List.range 64).map (fun i => (i / 16 + 1, rfc_g i, rfc_s i, rfc_K.getD i 0)) := by
  decide

theorem rfc_s_bounds : ∀ i, i < 64 → 1 ≤ rfc_s i ∧ rfc_s i ≤ 31 := by
  decide

theorem code_F_eq_rfc_phase (q x y z : Nat) (hx : x < 2 ^ 32) (hy : y < 2 ^ 32)
    (hz : z < 2 ^ 32) : code_F (q + 1) x y z = rfc_phase q x y z := by
  match q with
  | 0 => exact F1_eq_rfc_F x y z hx hz
  | 1 => exact F2_eq_rfc_G x y z hy hz
  | 2 => rfl
  | q + 3 =>
    show y ^^^ (x ||| (0xFFFFFFFF - z % 2 ^ 32)) = y ^^^ (x ||| (0xFFFFFFFF - z))
    rw [Nat.mod_eq_of_lt hz]

theorem GET_UINT32_LE_eq_le_word (block : List Nat) (k : Nat) (h : ∀ b ∈ block, b < 256) :
    GET_UINT32_LE block (4 * k) = le_word block k := by
  have hget : ∀ j, block.getD j 0 < 256 := by
    intro j
    rw [List.getD_eq_getElem?_getD]
    cases hj : block[j]? with
    | none => simp
    | some v => exact h v (List.getElem?_mem hj)
  have h0 := hget (4 * k)
  have h1 := hget (4 * k + 1)
  have h2 := hget (4 * k + 2)
  have h3 := hget (4 * k + 3)
  unfold GET_UINT32_LE le_word
  rw [Nat.mod_eq_of_lt h0, Nat.mod_eq_of_lt h1, Nat.mod_eq_of_lt h2, Nat.mod_eq_of_lt h3,
    or_shiftLeft_of_lt _ _ 8 (by omega), or_shiftLeft_of_lt _ _ 16 (by omega),
    or_shiftLeft_of_lt _ _ 24 (by omega)]
  apply Nat.mod_eq_of_lt
  omega

theorem code_step_eq_rfc_round (X : Nat → Nat) (r : Nat × Nat × Nat × Nat) (i : Nat)
    (hi : i < 64) (hr : words_lt r) :
    code_step X r (i / 16 + 1, rfc_g i, rfc_s i, rfc_K.getD i 0) = rfc_round X r i ∧
      words_lt (rfc_round X r i) := by
  obtain ⟨ha, hb, hc, hd⟩ := hr
  obtain ⟨hs1, hs31⟩ := rfc_s_bounds i hi
  have hm : ∀ n : Nat, n % 2 ^ 32 < 2 ^ 32 := fun n => Nat.mod_lt _ (by norm_num)
  refine ⟨?_, hd, hm _, hb, hc⟩
  simp only [code_step, rfc_round, P, code_F_eq_rfc_phase (i / 16) _ _ _ hb hc hd]
  have harg : (r.1 + (rfc_phase (i / 16) r.2.1 r.2.2.1 r.2.2.2 + X (rfc_g i) + rfc_K.getD i 0))
      = r.1 + rfc_phase (i / 16) r.2.1 r.2.2.1 r.2.2.2 + X (rfc_g i) + rfc_K.getD i 0 := by
    omega
  rw [harg, (S_lt _ (rfc_s i) (hm _) hs1 hs31).1, Nat.add_comm (rotl32 _ _)]

theorem foldl_rounds_eq (X : Nat → Nat) (l : List Nat) (r : Nat × Nat × Nat × Nat)
    (hl : ∀ i ∈ l, i < 64) (hr : words_lt r) :
    (l.map (fun i => (i / 16 + 1, rfc_g i, rfc_s i, rfc_K.getD i 0))).foldl (code_step X) r =
      l.foldl (rfc_round X) r := by
  induction l generalizing r with
  | nil => rfl
  | cons i is ih =>
    obtain ⟨he, hw⟩ := code_step_eq_rfc_round X r i (hl i (List.mem_cons_self i is)) hr
    rw [List.map_cons, List.foldl_cons, List.foldl_cons, he]
    exact ih _ (fun j hj => hl j (List.mem_cons_of_mem i hj)) hw

theorem md5_rounds_eq_rfc (A B C D : Nat) (block : List Nat) (hr : words_lt (A, B, C, D))
    (h : ∀ b ∈ block, b < 256) :
    md5_rounds A B C D block = (List.range 64).foldl (rfc_round (le_word block)) (A, B, C, D) := by
  have hX : (fun k => GET_UINT32_LE block (4 * k)) = le_word block :=
    funext (fun k => GET_UINT32_LE_eq_le_word block k h)
  rw [md5_rounds_eq_fold, hX, code_steps_eq_table,
    foldl_rounds_eq _ _ _ (fun i hi => List.mem_range.mp hi) hr]

/-- C15. `md5_process` is the table-driven compression function of RFC 1321:
for every state of four 32-bit words and every block of bytes, with `X[0..15]`
the little-endian words of the block, running the rounds `i = 0..63`,
`(a,b,c,d) := (d, b + rotl32 (a + f_i(b,c,d) + X[g(i)] + K[i], s[i]), b, c)`
with `F, G, H, I`, the index schedule `g`, the rotation amounts `s` and the
64 constants `K`, and adding the registers to the input state modulo `2^32`,
gives the state that `md5_process` leaves; the counter and the buffer are
left as they were. -/
theorem md5_process_eq_rfc_compress (c : md5_t) (block : List Nat)
    (hw : c.state0 < 2 ^ 32 ∧ c.state1 < 2 ^ 32 ∧ c.state2 < 2 ^ 32 ∧ c.state3 < 2 ^ 32)
    (h : ∀ b ∈ block, b < 256) :
    words (md5_process c block) = rfc_compress (words c) block ∧
      (md5_process c block).total0 = c.total0 ∧ (md5_process c block).total1 = c.total1 ∧
      (md5_process c block).buffer = c.buffer := by
  refine ⟨?_, md5_process_total0 c block, md5_process_total1 c block,
    md5_process_buffer c block⟩
  simp only [words, md5_process, rfc_compress]
  rw [md5_rounds_eq_rfc c.state0 c.state1 c.state2 c.state3 block hw h]

/-! ### Every access of the streaming feed is in range -/

/-- Witness of C15 on the initial state and the padding block of the empty
message. -/
theorem md5_process_eq_rfc_compress_witness :
    ((md5_pre ctx_zero).state0 < 2 ^ 32 ∧ (md5_pre ctx_zero).state1 < 2 ^ 32 ∧
        (md5_pre ctx_zero).state2 < 2 ^ 32 ∧ (md5_pre ctx_zero).state3 < 2 ^ 32) ∧
      (∀ b ∈ md5_padding, b < 256) ∧
      words (md5_process (md5_pre ctx_zero) md5_padding) =
        rfc_compress (words (md5_pre ctx_zero)) md5_padding ∧
      rfc_compress (0x67452301, 0xEFCDAB89, 0x98BADCFE, 0x10325476) md5_padding =
        (0xd98c1dd4, 0x04b2008f, 0x980980e9, 0x7e42f8ec) :=
  ⟨by decide, by decide,
    (md5_process_eq_rfc_compress (md5_pre ctx_zero) md5_padding (by decide) (by decide)).1,
    by decide⟩

end Toolbox
